import Mathlib

/-!
Verification of the agent stream reducer and session store of the
Obsidian-Claude plugin.

The definitions below are a shallow embedding of
`src/services/AgentService.ts` (the `AgentService.sendMessage` stream
loop, `calculateCost`, and the `SessionManager` class) and of the chat
orchestrator's `sendMessage` handler (the React view component).
JavaScript numbers used as token counts are embedded as `Nat`; dollar
amounts are embedded as `ℚ` (the source formulas involve only exact
decimal arithmetic at the granularity the claims are about).  Stateful
code (the `for await` loop, the `Map`-backed session store, the React
state setters) is embedded as explicit state-passing over structures.
-/

namespace ObsidianClaude

/-! ## Data model (`src/types.ts`) -/

/-- Role of a chat message: `'user' | 'assistant' | 'system'`. -/
inductive Role where
  | user
  | assistant
  | system
deriving DecidableEq

/-- `ToolResult` from `src/types.ts`: one tool invocation as tracked by the
stream reducer.  The `input` record (`Record<string, unknown>`) is embedded
opaquely as a string. -/
structure ToolResult where
  tool : String
  input : String
  output : String
  isError : Bool
  id : String
deriving DecidableEq

/-- `UsageStats` from `src/types.ts`.  Token counts are `Nat`, the USD cost
is `ℚ`. -/
structure UsageStats where
  inputTokens : Nat
  outputTokens : Nat
  totalTokens : Nat
  estimatedCost : ℚ
deriving DecidableEq

/-- `SlashCommand` from `src/types.ts`. -/
structure SlashCommand where
  name : String
  description : String
deriving DecidableEq

/-- `EditorContext` from `src/types.ts`. -/
structure EditorContext where
  activeFile : Option String
  selectionStart : Option Nat
  selectionEnd : Option Nat
  selectedText : Option String
deriving DecidableEq

/-- `ChatMessage` from `src/types.ts` (the `context` attachment list is
embedded opaquely as absent/present display strings are not needed by any
claim, so it is omitted together with `editorContext`'s display use;
`editorContext` itself is kept). -/
structure ChatMessage where
  id : String
  role : Role
  content : String
  timestamp : Nat
  toolResults : Option (List ToolResult)
  editorContext : Option EditorContext
deriving DecidableEq

/-- `ChatSession` from `src/types.ts`. -/
structure ChatSession where
  id : String
  sessionId : Option String
  title : String
  messages : List ChatMessage
  createdAt : Nat
  updatedAt : Nat
  usage : UsageStats
deriving DecidableEq

/-- `AgentResponse` from `src/types.ts`. -/
structure AgentResponse where
  content : String
  sessionId : String
  toolResults : Option (List ToolResult)
  usage : Option UsageStats
deriving DecidableEq

/-! ## Usage accumulator (`AgentService.ts` lines 9–27, 764–775) -/

/-- `DEFAULT_INPUT_PRICE` — $3 per 1M input tokens. -/
def DEFAULT_INPUT_PRICE : ℚ := 3

/-- `DEFAULT_OUTPUT_PRICE` — $15 per 1M output tokens. -/
def DEFAULT_OUTPUT_PRICE : ℚ := 15

/-- `calculateCost` from `AgentService.ts`:
`(inputTokens / 1_000_000) * DEFAULT_INPUT_PRICE +
 (outputTokens / 1_000_000) * DEFAULT_OUTPUT_PRICE`. -/
def calculateCost (inputTokens outputTokens : ℚ) : ℚ :=
  (inputTokens / 1000000) * DEFAULT_INPUT_PRICE +
    (outputTokens / 1000000) * DEFAULT_OUTPUT_PRICE

/-- `DEFAULT_USAGE` from the `SessionManager` file: the all-zero usage
record. -/
def DEFAULT_USAGE : UsageStats :=
  { inputTokens := 0, outputTokens := 0, totalTokens := 0, estimatedCost := 0 }

/-- The field-wise accumulation performed by `SessionManager.updateUsage`
(`session.usage.inputTokens += usage.inputTokens; ...` over all four
fields), extracted as a binary operation on `UsageStats`. -/
def mergeUsage (total delta : UsageStats) : UsageStats :=
  { inputTokens := total.inputTokens + delta.inputTokens
    outputTokens := total.outputTokens + delta.outputTokens
    totalTokens := total.totalTokens + delta.totalTokens
    estimatedCost := total.estimatedCost + delta.estimatedCost }

/-! ## Session store (`SessionManager` in `AgentService.ts` lines 590–775)

The store is embedded as a `StoreState`:

* `sessions` is the in-memory `Map<string, ChatSession>` as an
  insertion-ordered list with unique ids (`Map.set` replaces in place
  when the key is present, appends otherwise; `Map.values()` iterates in
  insertion order);
* `data` is the durable plugin-data entry under `SESSIONS_KEY`.

The `Date.now()` timestamps and generated UUIDs are passed explicitly.
All store methods are total Lean functions, so "does not throw" is
inherent in the embedding. -/

structure StoreState where
  sessions : List ChatSession
  data : List ChatSession
deriving DecidableEq

/-- `Map.set` on the insertion-ordered session list: replace the entry with
the same id in place, else append. -/
def mapSet (l : List ChatSession) (s : ChatSession) : List ChatSession :=
  if l.any (fun t => t.id == s.id) then
    l.map (fun t => if t.id == s.id then s else t)
  else
    l ++ [s]

/-- Stable insertion of a session into a list already sorted by
`updatedAt` descending.  In `sortByUpdatedAtDesc` the inserted element
is original-earlier than everything in the already-sorted tail, so it
goes before the first element whose key is less than or equal to its
own: equal-key elements keep their original relative order, matching
the stable JS `sort((a, b) => b.updatedAt - a.updatedAt)`. -/
def insertByUpdatedAtDesc (s : ChatSession) : List ChatSession → List ChatSession
  | [] => [s]
  | t :: ts =>
      if t.updatedAt ≤ s.updatedAt then s :: t :: ts
      else t :: insertByUpdatedAtDesc s ts

/-- The stable `sort((a, b) => b.updatedAt - a.updatedAt)` used by
`persistSessions` and `getAllSessions`. -/
def sortByUpdatedAtDesc : List ChatSession → List ChatSession
  | [] => []
  | s :: ss => insertByUpdatedAtDesc s (sortByUpdatedAtDesc ss)

/-- `SessionManager.persistSessions`: write the sorted,
`maxSessionHistory`-truncated in-memory list to durable data.  The
in-memory map itself is not modified. -/
def persistSessions (maxSessionHistory : Nat) (st : StoreState) : StoreState :=
  { st with data := (sortByUpdatedAtDesc st.sessions).take maxSessionHistory }

/-- `SessionManager.loadAllSessions`: rebuild the in-memory map from the
durable data (sessions in the model always carry a `usage` field, so the
legacy-default branch is the identity here). -/
def loadAllSessions (st : StoreState) : StoreState :=
  { st with sessions := st.data }

/-- `SessionManager.createNewSession` (uuid and `Date.now()` passed
explicitly). -/
def createNewSession (maxSessionHistory : Nat) (uuid : String) (now : Nat)
    (st : StoreState) : StoreState :=
  let session : ChatSession :=
    { id := uuid, sessionId := none, title := "New Conversation",
      messages := [], createdAt := now, updatedAt := now,
      usage := DEFAULT_USAGE }
  persistSessions maxSessionHistory { st with sessions := mapSet st.sessions session }

/-- `SessionManager.loadSession`: `this.sessions.get(id) || null`. -/
def loadSession (id : String) (st : StoreState) : Option ChatSession :=
  st.sessions.find? (fun s => s.id == id)

/-- The title auto-derivation step at the top of
`SessionManager.saveSession`: if the title is still `'New Conversation'`
and the message list is non-empty, the first user message's content,
`slice(0, 50)` plus `'...'` when longer than 50 characters, becomes the
title. -/
def deriveTitle (session : ChatSession) : ChatSession :=
  if session.title == "New Conversation" && decide (session.messages.length > 0) then
    match session.messages.find? (fun m => m.role == Role.user) with
    | some firstUserMsg =>
        let title := firstUserMsg.content.take 50
        { session with
            title := title ++ (if firstUserMsg.content.length > 50 then "..." else "") }
    | none => session
  else
    session

/-- `SessionManager.saveSession`: derive the title, stamp `updatedAt`,
store into the map, persist. -/
def saveSession (maxSessionHistory : Nat) (now : Nat) (session : ChatSession)
    (st : StoreState) : StoreState :=
  let s := deriveTitle session
  let s := { s with updatedAt := now }
  persistSessions maxSessionHistory { st with sessions := mapSet st.sessions s }

/-- `SessionManager.deleteSession`. -/
def deleteSession (maxSessionHistory : Nat) (id : String) (st : StoreState) :
    StoreState :=
  persistSessions maxSessionHistory
    { st with sessions := st.sessions.filter (fun s => !(s.id == id)) }

/-- `SessionManager.getAllSessions`: the in-memory sessions sorted by
`updatedAt` descending.  This reads the in-memory map, not the persisted
data. -/
def getAllSessions (st : StoreState) : List ChatSession :=
  sortByUpdatedAtDesc st.sessions

/-- `SessionManager.renameSession`: no-op when the id is absent. -/
def renameSession (maxSessionHistory : Nat) (now : Nat) (id newTitle : String)
    (st : StoreState) : StoreState :=
  match st.sessions.find? (fun s => s.id == id) with
  | none => st
  | some session =>
      let s := { session with title := newTitle, updatedAt := now }
      persistSessions maxSessionHistory { st with sessions := mapSet st.sessions s }

/-- `SessionManager.addMessage`: no-op when the id is absent. -/
def addMessage (maxSessionHistory : Nat) (now : Nat) (sessionId : String)
    (message : ChatMessage) (st : StoreState) : StoreState :=
  match st.sessions.find? (fun s => s.id == sessionId) with
  | none => st
  | some session =>
      let s := { session with messages := session.messages ++ [message], updatedAt := now }
      persistSessions maxSessionHistory { st with sessions := mapSet st.sessions s }

/-- `SessionManager.updateSdkSessionId`: no-op when the id is absent; does
not stamp `updatedAt`. -/
def updateSdkSessionId (maxSessionHistory : Nat) (localId sdkSessionId : String)
    (st : StoreState) : StoreState :=
  match st.sessions.find? (fun s => s.id == localId) with
  | none => st
  | some session =>
      let s := { session with sessionId := some sdkSessionId }
      persistSessions maxSessionHistory { st with sessions := mapSet st.sessions s }

/-- `SessionManager.updateUsage`: field-wise accumulate the per-turn usage
into the stored session's usage; no-op when the id is absent; does not
stamp `updatedAt`. -/
def updateUsage (maxSessionHistory : Nat) (sessionId : String) (usage : UsageStats)
    (st : StoreState) : StoreState :=
  match st.sessions.find? (fun s => s.id == sessionId) with
  | none => st
  | some session =>
      let s := { session with usage := mergeUsage session.usage usage }
      persistSessions maxSessionHistory { st with sessions := mapSet st.sessions s }

/-! ## Protocol messages consumed by `AgentService.sendMessage`

The dynamically probed SDK messages are embedded as a tagged union with
one variant per shape the loop in `sendMessage` distinguishes.  Optional
JavaScript fields become `Option`s; the `textDelta && …`, `output && …`,
`result && result !== ''` truthiness checks on strings become explicit
`≠ ""` tests in `processMsg`; `is_error || false` collapses an absent
flag to `false`, so that field is embedded as `Bool` directly. -/

/-- A block inside a `content` array that the code only probes for
`type === 'text'` (system-message content, tool-result content). -/
inductive TBlock where
  | text (t : String)
  | other
deriving DecidableEq

/-- The `content` field of a tool-result payload: absent, a plain string,
or an array of blocks. -/
inductive TRContent where
  | absent
  | str (s : String)
  | arr (bs : List TBlock)
deriving DecidableEq

/-- A content block of an assistant message: `text`, `tool_use`, or
anything else (ignored).  The `input` record of a `tool_use` block is
embedded opaquely as a string. -/
inductive ABlock where
  | text (t : String)
  | toolUse (id name input : String)
  | other
deriving DecidableEq

/-- A content block of a user message's array content: probed only for
`type === 'tool_result'`. -/
inductive UBlock where
  | toolResult (tool_use_id : String) (content : TRContent) (is_error : Bool)
  | other
deriving DecidableEq

/-- The `message.content` of a user message: a string, a block array, or
absent. -/
inductive UserContent where
  | absent
  | str (s : String)
  | arr (bs : List UBlock)
deriving DecidableEq

/-- Raw `usage` counters on an assistant or result message; `|| 0`
defaulting of absent counters is built in by using `Nat` directly. -/
structure RawUsage where
  input_tokens : Nat
  output_tokens : Nat
deriving DecidableEq

/-- The SDK messages distinguished by the `for await` loop of
`AgentService.sendMessage`.  Every variant carries its `session_id`.

* `system`: carries the `subtype` string plus the optional fields the
  loop probes (`slash_commands`, `compact_metadata.pre_tokens`,
  `compact_metadata.trigger`, a string `message`, a block-array
  `content`).
* `streamDelta`: a `stream_event` whose event is a
  `content_block_delta` with a `text_delta` (only the delta text
  matters).  Other stream events are `streamOther`.
* `assistant`: content blocks plus optional usage counters.
* `toolResultMsg`: a `tool_result` (`progress = false`) or
  `tool_progress` (`progress = true`) message — both are handled
  identically; carries `tool_use_id`, `content`, an optional string
  `output` field, and `is_error`.
* `user`: a user message with its content.
* `result`: the terminal result message with its optional string
  `result` payload and optional usage counters.
* `unknown`: any other message type (ignored by every branch). -/
inductive SDKMsg where
  | system (session_id : String) (subtype : String)
      (slash_commands : Option (List String)) (pre_tokens : Option Nat)
      (trigger : Option String) (message : Option String)
      (content : Option (List TBlock))
  | streamDelta (session_id : String) (text : String)
  | streamOther (session_id : String)
  | assistant (session_id : String) (blocks : List ABlock) (usage : Option RawUsage)
  | toolResultMsg (session_id : String) (progress : Bool) (tool_use_id : String)
      (content : TRContent) (output : Option String) (is_error : Bool)
  | user (session_id : String) (content : UserContent)
  | result (session_id : String) (res : Option String) (usage : Option RawUsage)
  | unknown (session_id : String)
deriving DecidableEq

/-- The `msg.session_id` accessor (every SDK message carries one). -/
def SDKMsg.sessionId : SDKMsg → String
  | .system sid .. => sid
  | .streamDelta sid _ => sid
  | .streamOther sid => sid
  | .assistant sid .. => sid
  | .toolResultMsg sid .. => sid
  | .user sid _ => sid
  | .result sid .. => sid
  | .unknown sid => sid

/-! ## Stream-reducer helpers -/

/-- `filter(block => block.type === 'text').map(block => block.text).join('')`
over a block array. -/
def joinTextBlocks (bs : List TBlock) : String :=
  String.join (bs.filterMap (fun b => match b with
    | .text t => some t
    | .other => none))

/-- `getAssistantText` from `AgentService.ts`, applied to the content
blocks of an assistant message: concatenate the `text` of all
text-typed blocks. -/
def getAssistantText (blocks : List ABlock) : String :=
  String.join (blocks.filterMap (fun b => match b with
    | .text t => some t
    | _ => none))

/-- `AgentService.getCommandDescription`: fixed descriptions for three
built-in commands, `''` otherwise. -/
def getCommandDescription (command : String) : String :=
  if command == "/compact" then "Compact conversation history to save tokens"
  else if command == "/clear" then "Clear conversation and start fresh"
  else if command == "/help" then "Show available commands and help"
  else ""

/-- `cmd.startsWith('/')`, embedded structurally on the character list so
that it evaluates by kernel reduction. -/
def strStartsWithSlash (s : String) : Bool :=
  match s.data with
  | [] => false
  | c :: _ => c == '/'

/-- `DEFAULT_SLASH_COMMANDS` from `AgentService.ts`. -/
def DEFAULT_SLASH_COMMANDS : List SlashCommand :=
  [⟨"/compact", "Compact conversation history to save tokens"⟩,
   ⟨"/clear", "Clear conversation and start fresh"⟩,
   ⟨"/help", "Show available commands and help"⟩,
   ⟨"/init", "Initialize with CLAUDE.md instructions"⟩,
   ⟨"/terminal-setup", "Set up terminal integration"⟩,
   ⟨"/mcp", "Manage MCP servers"⟩,
   ⟨"/permissions", "Manage tool permissions"⟩,
   ⟨"/review", "Review recent changes"⟩,
   ⟨"/pr-comments", "View PR comments"⟩,
   ⟨"/memory", "Manage project memory"⟩,
   ⟨"/config", "Show configuration"⟩,
   ⟨"/cost", "Show session cost and usage"⟩,
   ⟨"/doctor", "Run diagnostic checks"⟩,
   ⟨"/logout", "Log out of current account"⟩]

/-- The `compact_boundary` summary string:
`` `Conversation compacted.\nPre-compaction tokens: ${pre_tokens || 'N/A'}\nTrigger: ${trigger || 'manual'}` ``
(note `0` and `''` are falsy, hence also default). -/
def compactText (pre_tokens : Option Nat) (trigger : Option String) : String :=
  "Conversation compacted.\nPre-compaction tokens: " ++
    (match pre_tokens with
      | some n => if n == 0 then "N/A" else toString n
      | none => "N/A") ++
    "\nTrigger: " ++
    (match trigger with
      | some t => if t == "" then "manual" else t
      | none => "manual")

/-- JavaScript `String.prototype.trim()`, embedded structurally on the
character list (ASCII whitespace; the claims never depend on the exotic
Unicode whitespace classes). -/
def jsTrim (s : String) : String :=
  ⟨((s.data.dropWhile Char.isWhitespace).reverse.dropWhile Char.isWhitespace).reverse⟩

/-- The regex match
`content.match(/<local-command-stdout>([\s\S]*?)<\/local-command-stdout>/)`
followed by `.trim()` on the capture: take the text after the first
opening tag up to the first closing tag after it, trimmed; `none` when
the pattern does not occur. -/
def extractStdout (s : String) : Option String :=
  match s.splitOn "<local-command-stdout>" with
  | [] => none
  | [_] => none
  | _ :: rest =>
      let afterOpen := String.intercalate "<local-command-stdout>" rest
      match afterOpen.splitOn "</local-command-stdout>" with
      | [] => none
      | [_] => none
      | capture :: _ => some (jsTrim capture)

/-- Update the first element satisfying `p` (the JS
`array.find(…)`-then-mutate idiom); leaves the list unchanged when no
element matches. -/
def updateFirst (p : ToolResult → Bool) (f : ToolResult → ToolResult) :
    List ToolResult → List ToolResult
  | [] => []
  | t :: ts => if p t then f t :: ts else t :: updateFirst p f ts

/-- The mutations applied to a matched tool invocation by the
`tool_result`/`tool_progress` branch.  The content extraction is guarded
by `if (toolResultMsg.content)`, a JS truthiness test: an absent or
empty-string `content` is falsy and writes nothing, a non-empty string
overwrites `output`, and any block array (arrays are always truthy, even
empty ones) overwrites `output` with its flattened text.  A truthy
string `output` field then overwrites again; `is_error || false`
overwrites `isError`. -/
def applyToolResult (content : TRContent) (output : Option String)
    (is_error : Bool) (t : ToolResult) : ToolResult :=
  let t := match content with
    | .absent => t
    | .str s => if s == "" then t else { t with output := s }
    | .arr bs => { t with output := joinTextBlocks bs }
  let t := match output with
    | some o => if o == "" then t else { t with output := o }
    | none => t
  { t with isError := is_error }

/-- The mutations applied to a matched tool invocation by a `tool_result`
block inside a user message's content array. -/
def applyUserToolResult (content : TRContent) (is_error : Bool)
    (t : ToolResult) : ToolResult :=
  let t := match content with
    | .absent => t
    | .str s => { t with output := s }
    | .arr bs => { t with output := joinTextBlocks bs }
  { t with isError := is_error }

/-- The loop over a user message's content array: every `tool_result`
block performs the correlation-id lookup and overwrite on the invocation
list; other blocks are skipped. -/
def applyUserBlocks (bs : List UBlock) (trs : List ToolResult) : List ToolResult :=
  bs.foldl (fun trs b =>
    match b with
    | .toolResult tool_use_id c e =>
        updateFirst (fun t => t.id == tool_use_id) (applyUserToolResult c e) trs
    | .other => trs) trs

/-- Fixed placeholder set by the system/init branch when `responseContent`
is still empty. -/
def clearPlaceholder : String := "Conversation cleared. Starting fresh session."

/-! ## The stream reducer itself -/

/-- The mutable locals of one `AgentService.sendMessage` invocation
(`responseContent`, `toolResults`, `sdkSessionId`, `usage`), plus the
service-level `this.availableCommands` the loop may replace, plus
`streamUpdates`: the record, in call order, of the arguments passed to
the `onStreamUpdate` callback.  The model fixes the case in which a
callback was supplied (`onStreamUpdate` truthy), which is what every
claim about `onPartialText` is about. -/
structure TurnState where
  responseContent : String
  toolResults : List ToolResult
  sdkSessionId : String
  usage : Option UsageStats
  availableCommands : List SlashCommand
  streamUpdates : List String
deriving DecidableEq

/-- Per-turn usage assignment from raw counters (the
`usage = { inputTokens, outputTokens, totalTokens: i + o, estimatedCost: calculateCost(i, o) }`
pattern that appears in both the assistant and the result branch). -/
def mkUsageStats (u : RawUsage) : UsageStats :=
  { inputTokens := u.input_tokens
    outputTokens := u.output_tokens
    totalTokens := u.input_tokens + u.output_tokens
    estimatedCost := calculateCost (u.input_tokens : ℚ) (u.output_tokens : ℚ) }

/-- One iteration of the `for await (const msg of q)` loop of
`AgentService.sendMessage`, lines 349–548: first
`sdkSessionId = msg.session_id`, then each branch in source order. -/
def processMsg (st : TurnState) (m : SDKMsg) : TurnState :=
  let st := { st with sdkSessionId := m.sessionId }
  match m with
  | .system _ subtype slash_commands pre_tokens trigger message content =>
      -- Handle system init message - extract slash commands / placeholder
      let st :=
        if subtype == "init" then
          let st := match slash_commands with
            | some cmds =>
                { st with availableCommands := cmds.map (fun cmd =>
                    let name := if strStartsWithSlash cmd then cmd else "/" ++ cmd
                    ⟨name, getCommandDescription name⟩) }
            | none => st
          if st.responseContent == "" then
            { st with responseContent := clearPlaceholder }
          else st
        else st
      -- /compact command
      let st :=
        if subtype == "compact_boundary" then
          { st with responseContent := compactText pre_tokens trigger }
        else st
      -- system messages that carry a string `message`
      let st := match message with
        | some s => if s == "" then st else { st with responseContent := s }
        | none => st
      -- system messages with a content array
      match content with
      | some bs =>
          let textContent := joinTextBlocks bs
          if textContent == "" then st else { st with responseContent := textContent }
      | none => st
  | .streamDelta _ textDelta =>
      if textDelta == "" then st
      else
        let rc := st.responseContent ++ textDelta
        { st with responseContent := rc, streamUpdates := st.streamUpdates ++ [rc] }
  | .assistant _ blocks usage =>
      let text := getAssistantText blocks
      let st :=
        if text == "" then st
        else { st with responseContent := text, streamUpdates := st.streamUpdates ++ [text] }
      let st :=
        { st with toolResults := st.toolResults ++ blocks.filterMap (fun b =>
            match b with
            | .toolUse id name input => some ⟨name, input, "", false, id⟩
            | _ => none) }
      match usage with
      | some u => { st with usage := some (mkUsageStats u) }
      | none => st
  | .toolResultMsg _ _ tool_use_id content output is_error =>
      let trs := updateFirst (fun t => t.id == tool_use_id)
        (applyToolResult content output is_error) st.toolResults
      { st with toolResults := trs }
  | .user _ content =>
      match content with
      | .absent => st
      | .str s =>
          match extractStdout s with
          | some captured => { st with responseContent := captured }
          | none => st
      | .arr bs =>
          { st with toolResults := applyUserBlocks bs st.toolResults }
  | .result _ res usage =>
      let st := match res with
        | some r => if r == "" then st else { st with responseContent := r }
        | none => st
      match usage with
      | some u => { st with usage := some (mkUsageStats u) }
      | none => st
  | .streamOther _ => st
  | .unknown _ => st

/-- Fold the loop body over a message list from a given state. -/
def processAll (st : TurnState) (ms : List SDKMsg) : TurnState :=
  ms.foldl processMsg st

/-- The initial state of one `sendMessage` invocation (empty accumulators,
`this.availableCommands` at its default). -/
def initState : TurnState :=
  { responseContent := "", toolResults := [], sdkSessionId := "",
    usage := none, availableCommands := DEFAULT_SLASH_COMMANDS,
    streamUpdates := [] }

/-- Run a whole message stream from the initial state. -/
def runStream (ms : List SDKMsg) : TurnState :=
  processAll initState ms

/-- The `AgentResponse` assembled after the loop:
`sessionId: sdkSessionId || sessionId`,
`toolResults: toolResults.length > 0 ? toolResults : undefined`. -/
def mkAgentResponse (sessionId : String) (st : TurnState) : AgentResponse :=
  { content := st.responseContent
    sessionId := if st.sdkSessionId == "" then sessionId else st.sdkSessionId
    toolResults := if st.toolResults.length > 0 then some st.toolResults else none
    usage := st.usage }

/-- `AgentService.sendMessage` as a function of the transport's behaviour:
the message stream it yields, and `some e` when iteration faults with
error message `e` after yielding that prefix.  The `catch` block only
logs and rethrows the same error, so a faulting transport makes the call
reject with `e` and no partial result; a normally exhausted stream
yields the assembled `AgentResponse`. -/
def serviceSendMessage (sessionId : String) (stream : List SDKMsg)
    (streamError : Option String) : Except String AgentResponse :=
  match streamError with
  | some e => Except.error e
  | none => Except.ok (mkAgentResponse sessionId (runStream stream))

/-! ## Conversation orchestrator (`ChatView` component, `sendMessage`
handler)

The React component state relevant to a send: `messages`,
`streamingContent`, `error`, `isLoading`, and whether a session is
selected.  `uuidv4()` and `Date.now()` are passed explicitly; the
transport outcome is passed as the `Except` produced by
`serviceSendMessage`. -/

structure OrchState where
  messages : List ChatMessage
  streamingContent : String
  error : Option String
  isLoading : Bool
  hasSession : Bool
deriving DecidableEq

/-- The orchestrator's `sendMessage` handler:

* guard: `if (!content.trim() || isLoading || !currentSession) return;`
* optimistic append of the user `ChatMessage`;
* on transport success: append the assistant message built from the
  response, clear the streaming slot;
* on transport failure: surface `err.message` (transport errors are
  embedded by their message string), clear the streaming slot, keep the
  optimistic user message;
* `finally`: clear `isLoading`. -/
def orchSendMessage (st : OrchState) (content : String) (msgId asstMsgId : String)
    (now : Nat) (transport : Except String AgentResponse) : OrchState :=
  if jsTrim content == "" || st.isLoading || !st.hasSession then st
  else
    let userMessage : ChatMessage :=
      { id := msgId, role := Role.user, content := content, timestamp := now,
        toolResults := none, editorContext := none }
    let newMessages := st.messages ++ [userMessage]
    match transport with
    | Except.ok response =>
        let assistantMessage : ChatMessage :=
          { id := asstMsgId, role := Role.assistant, content := response.content,
            timestamp := now, toolResults := response.toolResults,
            editorContext := none }
        { st with messages := newMessages ++ [assistantMessage],
                  streamingContent := "", error := none, isLoading := false }
    | Except.error e =>
        { st with messages := newMessages, streamingContent := "",
                  error := some e, isLoading := false }

/-! ## Observations and predicates used to state the claims -/

/-- Concatenation of a list of strings in order (used to state the
text-delta accumulation property). -/
def concatAll : List String → String
  | [] => ""
  | s :: ss => s ++ concatAll ss

/-- The sequence of cumulative texts passed to the `onStreamUpdate`
callback when a list of delta texts is consumed starting from
accumulated text `acc`: one call per delta with non-empty text, carrying
the text accumulated so far; empty deltas produce no call. -/
def cumulCalls (acc : String) : List String → List String
  | [] => []
  | d :: ds =>
      if d = "" then cumulCalls acc ds
      else (acc ++ d) :: cumulCalls (acc ++ d) ds

/-- The invocations of the turn whose correlation id is `c`, in order. -/
def invocationsFor (c : String) (st : TurnState) : List ToolResult :=
  st.toolResults.filter (fun t => t.id == c)

/-- The `(name, input)` pairs of `tool_use` blocks with correlation id `c`
announced by a message (non-empty only for assistant messages). -/
def announcedWith (c : String) : SDKMsg → List (String × String)
  | .assistant _ blocks _ =>
      blocks.filterMap (fun b => match b with
        | .toolUse id name input => if id == c then some (name, input) else none
        | _ => none)
  | _ => []

/-- Whether a message performs a tool-result overwrite keyed by
correlation id `c` (a `tool_result`/`tool_progress` message with that
`tool_use_id`, or a user message with a `tool_result` block carrying
it). -/
def writesResult (c : String) : SDKMsg → Bool
  | .toolResultMsg _ _ tid _ _ _ => tid == c
  | .user _ (.arr bs) =>
      bs.any (fun b => match b with
        | .toolResult tid _ _ => tid == c
        | .other => false)
  | _ => false

/-- The flattened text carried by a tool-result `content` payload
(string content as is; block-array content as the concatenation of its
text-typed blocks; absent content carries nothing).  This is the
unguarded extraction used by the user-message `tool_result`-block path,
which has no truthiness test. -/
def contentText : TRContent → Option String
  | .absent => none
  | .str s => some s
  | .arr bs => some (joinTextBlocks bs)

/-- The text a `tool_result`/`tool_progress` message's `content` payload
writes, under the `if (toolResultMsg.content)` truthiness guard: an
absent or empty-string content is falsy and writes nothing; a non-empty
string writes itself; any block array is truthy and writes its
flattened text (possibly empty). -/
def truthyContentText : TRContent → Option String
  | .absent => none
  | .str s => if s == "" then none else some s
  | .arr bs => some (joinTextBlocks bs)

/-- The `(output, isError)` a clean result event for correlation id `c`
writes: a `tool_result`/`tool_progress` message for `c` whose `content`
is truthy (a non-empty string, or a block array) and whose string
`output` field is absent, or a user message carrying exactly one
`tool_result` block for `c` with present content (the user-block path
has no truthiness guard). -/
def finalResultFor (c : String) : SDKMsg → Option (String × Bool)
  | .toolResultMsg _ _ tid content output is_error =>
      if tid == c then
        match output with
        | some _ => none
        | none => (truthyContentText content).map (fun s => (s, is_error))
      else none
  | .user _ (.arr bs) =>
      match bs.filterMap (fun b => match b with
        | .toolResult tid cnt e => if tid == c then some (cnt, e) else none
        | .other => none) with
      | [(cnt, e)] => (contentText cnt).map (fun s => (s, e))
      | _ => none
  | _ => none

/-- The correlation ids a result-carrying message tries to look up. -/
def carriedIds : SDKMsg → List String
  | .toolResultMsg _ _ tid _ _ _ => [tid]
  | .user _ (.arr bs) =>
      bs.filterMap (fun b => match b with
        | .toolResult tid _ _ => some tid
        | .other => none)
  | _ => []

/-- Whether a message is a tool-result-carrying event (a
`tool_result`/`tool_progress` message, or a user message with array
content). -/
def isResultKind : SDKMsg → Bool
  | .toolResultMsg .. => true
  | .user _ (.arr _) => true
  | _ => false

/-- Whether processing a message is guaranteed to leave a non-empty
`responseContent` untouched: it is not a compact-boundary or
string-`message`/text-`content`-carrying system message, not a non-empty
text delta, not an assistant message with non-empty text, not a user
message with an embedded `<local-command-stdout>` payload, and not a
result message with a non-empty `result` payload. -/
def preservesResponse : SDKMsg → Bool
  | .system _ subtype _ _ _ message content =>
      !(subtype == "compact_boundary") &&
      (match message with | some s => s == "" | none => true) &&
      (match content with | some bs => joinTextBlocks bs == "" | none => true)
  | .streamDelta _ d => d == ""
  | .assistant _ blocks _ => getAssistantText blocks == ""
  | .toolResultMsg .. => true
  | .user _ c =>
      (match c with
        | .str s => (extractStdout s).isNone
        | _ => true)
  | .result _ res _ => (match res with | some r => r == "" | none => true)
  | .streamOther _ => true
  | .unknown _ => true

/-- Whether a message announces no tool use at all. -/
def announcesNothing : SDKMsg → Bool
  | .assistant _ blocks _ =>
      blocks.all (fun b => match b with
        | .toolUse .. => false
        | _ => true)
  | _ => true

/-! ## General lemmas about the reducer -/

lemma processAll_nil (st : TurnState) : processAll st [] = st := rfl

lemma processAll_cons (st : TurnState) (m : SDKMsg) (ms : List SDKMsg) :
    processAll st (m :: ms) = processAll (processMsg st m) ms := rfl

lemma processAll_append (st : TurnState) (ms₁ ms₂ : List SDKMsg) :
    processAll st (ms₁ ++ ms₂) = processAll (processAll st ms₁) ms₂ :=
  List.foldl_append ..

/-- Running a pure text-delta stream from any state appends the
concatenated deltas to `responseContent` and extends the callback record
by the cumulative text at each non-empty delta. -/
lemma processAll_deltas (sid : String) (ds : List String) (st : TurnState) :
    (processAll st (ds.map (SDKMsg.streamDelta sid))).responseContent
        = st.responseContent ++ concatAll ds ∧
    (processAll st (ds.map (SDKMsg.streamDelta sid))).streamUpdates
        = st.streamUpdates ++ cumulCalls st.responseContent ds := by
  induction ds generalizing st with
  | nil =>
      simp [processAll, concatAll, cumulCalls, String.append_empty]
  | cons d ds ih =>
      by_cases hd : d = ""
      · subst hd
        have hstep :
            processMsg st (SDKMsg.streamDelta sid "") =
              { st with sdkSessionId := sid } := by
          simp [processMsg, SDKMsg.sessionId]
        rw [List.map_cons, processAll_cons, hstep]
        have h := ih { st with sdkSessionId := sid }
        simpa [concatAll, cumulCalls, String.empty_append] using h
      · have hstep :
            processMsg st (SDKMsg.streamDelta sid d) =
              { st with sdkSessionId := sid,
                        responseContent := st.responseContent ++ d,
                        streamUpdates := st.streamUpdates ++ [st.responseContent ++ d] } := by
          simp [processMsg, SDKMsg.sessionId, hd]
        rw [List.map_cons, processAll_cons, hstep]
        have h := ih { st with sdkSessionId := sid,
                               responseContent := st.responseContent ++ d,
                               streamUpdates := st.streamUpdates ++ [st.responseContent ++ d] }
        obtain ⟨h1, h2⟩ := h
        constructor
        · rw [h1]
          simp [concatAll, String.append_assoc]
        · rw [h2]
          simp [cumulCalls, hd]

/-! ## C1 -/

/-- C1 (amended): for every finite stream consisting only of text-delta
events, the final `responseText` is the concatenation of all delta texts
in arrival order, and the `onPartialText` callback fires once per delta
with non-empty text, each time with the cumulative text so far; deltas
with empty text fire no callback. -/
theorem C1_text_delta_accumulation (sid : String) (ds : List String) :
    (runStream (ds.map (SDKMsg.streamDelta sid))).responseContent = concatAll ds ∧
    (runStream (ds.map (SDKMsg.streamDelta sid))).streamUpdates = cumulCalls "" ds := by
  have h := processAll_deltas sid ds initState
  simpa [runStream, initState, String.empty_append] using h

/-- C1 counterexample: a stream consisting of a single text-delta event
whose delta text is the empty string triggers no `onPartialText` call at
all, although the claim requires every delta to trigger the callback
with the cumulative text so far (which here would be one call with
`""`). -/
theorem C1_counterexample :
    ¬ ((runStream [SDKMsg.streamDelta "sid" ""]).streamUpdates
        = [concatAll [""]]) := by decide

/-! ## C7 -/

/-- C7: `calculateCost` is `inputTokens/1e6 × 3.00 + outputTokens/1e6 × 15.00`
with the fixed default per-million prices; 1M input tokens cost 3.00,
1M output tokens cost 15.00, zero tokens cost zero, and the cost of
non-negative token counts is never negative. -/
theorem C7_calculateCost (i o : ℚ) (hi : 0 ≤ i) (ho : 0 ≤ o) :
    calculateCost i o = i / 1000000 * 3 + o / 1000000 * 15 ∧
    calculateCost 1000000 0 = 3 ∧
    calculateCost 0 1000000 = 15 ∧
    calculateCost 0 0 = 0 ∧
    0 ≤ calculateCost i o := by
  have h1000000 : (0 : ℚ) ≤ 1000000 := by norm_num
  refine ⟨rfl, by norm_num [calculateCost, DEFAULT_INPUT_PRICE, DEFAULT_OUTPUT_PRICE],
    by norm_num [calculateCost, DEFAULT_INPUT_PRICE, DEFAULT_OUTPUT_PRICE],
    by norm_num [calculateCost, DEFAULT_INPUT_PRICE, DEFAULT_OUTPUT_PRICE], ?_⟩
  have hin : 0 ≤ i / 1000000 * DEFAULT_INPUT_PRICE :=
    mul_nonneg (div_nonneg hi h1000000) (by norm_num [DEFAULT_INPUT_PRICE])
  have hout : 0 ≤ o / 1000000 * DEFAULT_OUTPUT_PRICE :=
    mul_nonneg (div_nonneg ho h1000000) (by norm_num [DEFAULT_OUTPUT_PRICE])
  exact add_nonneg hin hout

/-- C7 witness: the theorem applied at `i = 3`, `o = 5`. -/
theorem C7_calculateCost_witness :
    (0 : ℚ) ≤ 3 ∧ (0 : ℚ) ≤ 5 ∧
    (calculateCost 3 5 = 3 / 1000000 * 3 + 5 / 1000000 * 15 ∧
      calculateCost 1000000 0 = 3 ∧
      calculateCost 0 1000000 = 15 ∧
      calculateCost 0 0 = 0 ∧
      0 ≤ calculateCost 3 5) :=
  ⟨by decide, by decide, C7_calculateCost 3 5 (by decide) (by decide)⟩

/-! ## C5 -/

/-- `Map.set` followed by lookup with the stored id finds the stored
session. -/
lemma find?_mapSet (l : List ChatSession) (s : ChatSession) :
    (mapSet l s).find? (fun t => t.id == s.id) = some s := by
  unfold mapSet
  by_cases hany : l.any (fun t => t.id == s.id)
  · rw [if_pos hany]
    induction l with
    | nil => simp at hany
    | cons t ts ih =>
        rw [List.map_cons]
        by_cases ht : (t.id == s.id) = true
        · simp only [ht, if_true]
          exact List.find?_cons_of_pos _ (by simp)
        · have ht' : (t.id == s.id) = false := by simpa using ht
          have htail : ts.any (fun t => t.id == s.id) = true := by
            simp only [List.any_cons, ht', Bool.false_or] at hany
            exact hany
          simp only [ht', Bool.false_eq_true, if_false]
          rw [List.find?_cons_of_neg _ (by simp [ht'])]
          exact ih htail
  · have hany' : l.any (fun t => t.id == s.id) = false := by simpa using hany
    rw [if_neg (by simp [hany'])]
    rw [List.find?_append]
    have hnone : l.find? (fun t => t.id == s.id) = none := by
      rw [List.find?_eq_none]
      intro x hx
      have := List.any_eq_false.mp hany' x hx
      simpa using this
    simp [hnone]

/-- C5: `updateUsage`'s accumulation (`mergeUsage`) is field-wise addition
over the four numeric fields; it is associative and commutative with the
all-zero `UsageStats` as two-sided identity; merging the same delta
twice adds it twice field-wise; for a non-zero delta the double merge
differs from the single merge (no idempotence).  The last conjunct ties
it to the store: `updateUsage` stores the field-wise sum on the looked-up
session. -/
theorem C5_mergeUsage (a b c t d : UsageStats) (maxH : Nat) (sid : String)
    (s : ChatSession) (st : StoreState)
    (hd : d ≠ DEFAULT_USAGE)
    (hfind : st.sessions.find? (fun x => x.id == sid) = some s) :
    mergeUsage (mergeUsage a b) c = mergeUsage a (mergeUsage b c) ∧
    mergeUsage a b = mergeUsage b a ∧
    mergeUsage DEFAULT_USAGE a = a ∧
    mergeUsage a DEFAULT_USAGE = a ∧
    (mergeUsage (mergeUsage t d) d).inputTokens = t.inputTokens + 2 * d.inputTokens ∧
    (mergeUsage (mergeUsage t d) d).outputTokens = t.outputTokens + 2 * d.outputTokens ∧
    (mergeUsage (mergeUsage t d) d).totalTokens = t.totalTokens + 2 * d.totalTokens ∧
    (mergeUsage (mergeUsage t d) d).estimatedCost = t.estimatedCost + 2 * d.estimatedCost ∧
    mergeUsage (mergeUsage t d) d ≠ mergeUsage t d ∧
    loadSession sid (updateUsage maxH sid d st) = some { s with usage := mergeUsage s.usage d } := by
  refine ⟨?_, ?_, ?_, ?_, ?_, ?_, ?_, ?_, ?_, ?_⟩
  · simp [mergeUsage, add_assoc]
  · simp only [mergeUsage]
    congr 1 <;> first | omega | ring
  · simp [mergeUsage, DEFAULT_USAGE]
  · simp [mergeUsage, DEFAULT_USAGE]
  · simp [mergeUsage]; ring
  · simp [mergeUsage]; ring
  · simp [mergeUsage]; ring
  · simp [mergeUsage]; ring
  · intro h
    apply hd
    obtain ⟨d1, d2, d3, d4⟩ := d
    obtain ⟨t1, t2, t3, t4⟩ := t
    simp only [mergeUsage, UsageStats.mk.injEq, DEFAULT_USAGE] at h ⊢
    obtain ⟨h1, h2, h3, h4⟩ := h
    refine ⟨by omega, by omega, by omega, by linarith⟩
  · have hid : s.id = sid := by
      have := List.find?_some hfind
      simpa using this
    unfold updateUsage
    rw [hfind]
    unfold loadSession persistSessions
    simp only
    have := find?_mapSet st.sessions { s with usage := mergeUsage s.usage d }
    simpa [hid] using this

/-- C5 witness: the theorem applied at concrete usage records and a
one-session store. -/
theorem C5_mergeUsage_witness :
    (⟨1, 2, 3, 0⟩ : UsageStats) ≠ DEFAULT_USAGE ∧
    ([⟨"sess1", none, "T", [], 0, 0, DEFAULT_USAGE⟩] :
        List ChatSession).find? (fun x => x.id == "sess1")
      = some ⟨"sess1", none, "T", [], 0, 0, DEFAULT_USAGE⟩ ∧
    loadSession "sess1"
        (updateUsage 10 "sess1" ⟨1, 2, 3, 0⟩
          ⟨[⟨"sess1", none, "T", [], 0, 0, DEFAULT_USAGE⟩], []⟩)
      = some { (⟨"sess1", none, "T", [], 0, 0, DEFAULT_USAGE⟩ : ChatSession) with
                usage := mergeUsage DEFAULT_USAGE ⟨1, 2, 3, 0⟩ } := by
  refine ⟨by decide, rfl, ?_⟩
  exact (C5_mergeUsage DEFAULT_USAGE DEFAULT_USAGE DEFAULT_USAGE DEFAULT_USAGE
    ⟨1, 2, 3, 0⟩ 10 "sess1" ⟨"sess1", none, "T", [], 0, 0, DEFAULT_USAGE⟩
    ⟨[⟨"sess1", none, "T", [], 0, 0, DEFAULT_USAGE⟩], []⟩
    (by decide) rfl).2.2.2.2.2.2.2.2.2

/-! ## C6 -/

lemma deriveTitle_id (s : ChatSession) : (deriveTitle s).id = s.id := by
  unfold deriveTitle
  split
  · split <;> rfl
  · rfl

/-- What `saveSession` stores under the session's id: the title-derived
session with `updatedAt` stamped. -/
lemma loadSession_saveSession (maxH now : Nat) (session : ChatSession)
    (st : StoreState) :
    loadSession session.id (saveSession maxH now session st)
      = some { deriveTitle session with updatedAt := now } := by
  unfold saveSession loadSession persistSessions
  simp only
  have h := find?_mapSet st.sessions { deriveTitle session with updatedAt := now }
  have hid : ({ deriveTitle session with updatedAt := now } : ChatSession).id
      = session.id := deriveTitle_id session
  rw [← hid]
  exact h

/-- C6: `saveSession` derives the title from the first user message when
the title is still the default `"New Conversation"` (first 50 characters,
plus `"..."` exactly when the content exceeds 50 characters), and never
overwrites a non-default title. -/
theorem C6_title_derivation (s₁ s₂ : ChatSession) (m : ChatMessage)
    (st₁ st₂ : StoreState) (maxH now : Nat)
    (h1 : s₁.title = "New Conversation")
    (h2 : s₁.messages.find? (fun x => x.role == Role.user) = some m)
    (h3 : s₂.title ≠ "New Conversation") :
    (loadSession s₁.id (saveSession maxH now s₁ st₁)).map ChatSession.title
        = some (m.content.take 50 ++ (if m.content.length > 50 then "..." else "")) ∧
    (loadSession s₂.id (saveSession maxH now s₂ st₂)).map ChatSession.title
        = some s₂.title := by
  constructor
  · rw [loadSession_saveSession]
    have hne : s₁.messages ≠ [] := by
      intro h
      rw [h] at h2
      simp at h2
    have hlen : 0 < s₁.messages.length := List.length_pos.mpr hne
    have hcond : (s₁.title == "New Conversation"
        && decide (s₁.messages.length > 0)) = true := by
      simp [h1, hlen]
    simp [deriveTitle, hcond, h2]
  · rw [loadSession_saveSession]
    have hcond : (s₂.title == "New Conversation"
        && decide (s₂.messages.length > 0)) = false := by
      simp [h3]
    simp [deriveTitle, hcond]

/-- The spec's 62-character example first user message. -/
def titleMsg : ChatMessage :=
  { id := "m1", role := Role.user,
    content := "Summarize my meeting notes from yesterday and list action items",
    timestamp := 0, toolResults := none, editorContext := none }

/-- A still-default-titled session holding the example message. -/
def titleSess1 : ChatSession :=
  { id := "s1", sessionId := none, title := "New Conversation",
    messages := [titleMsg], createdAt := 0, updatedAt := 0,
    usage := DEFAULT_USAGE }

/-- A session with a customized title. -/
def titleSess2 : ChatSession :=
  { id := "s2", sessionId := none, title := "Custom title", messages := [],
    createdAt := 0, updatedAt := 0, usage := DEFAULT_USAGE }

/-- C6 witness: the 62-character first user message from the spec's
example yields the first 50 characters plus an ellipsis; a custom title
is preserved. -/
theorem C6_title_derivation_witness :
    titleSess1.title = "New Conversation" ∧
    titleSess1.messages.find? (fun x => x.role == Role.user) = some titleMsg ∧
    titleSess2.title ≠ "New Conversation" ∧
    ((loadSession titleSess1.id (saveSession 10 7 titleSess1 ⟨[], []⟩)).map
          ChatSession.title
        = some (titleMsg.content.take 50
            ++ (if titleMsg.content.length > 50 then "..." else "")) ∧
      (loadSession titleSess2.id (saveSession 10 7 titleSess2 ⟨[], []⟩)).map
          ChatSession.title
        = some titleSess2.title) :=
  ⟨rfl, rfl, by decide,
    C6_title_derivation titleSess1 titleSess2 titleMsg ⟨[], []⟩ ⟨[], []⟩ 10 7
      rfl rfl (by decide)⟩

/-! ## C10 -/

/-- C10: every id-keyed mutating `SessionManager` operation is a silent
no-op when the id is not in the store: the whole store state (in-memory
map and durable data) is returned unchanged.  The operations are total
functions of the state, so no exception is possible. -/
theorem C10_missing_session_noop (maxH now : Nat) (id newTitle sdkId : String)
    (msg : ChatMessage) (u : UsageStats) (st : StoreState)
    (h : st.sessions.find? (fun s => s.id == id) = none) :
    renameSession maxH now id newTitle st = st ∧
    addMessage maxH now id msg st = st ∧
    updateSdkSessionId maxH id sdkId st = st ∧
    updateUsage maxH id u st = st := by
  refine ⟨?_, ?_, ?_, ?_⟩ <;>
    simp [renameSession, addMessage, updateSdkSessionId, updateUsage, h]

/-- C10 witness: a store holding only session `"a"`, operations keyed by
the absent id `"b"`. -/
theorem C10_missing_session_noop_witness :
    (⟨[⟨"a", none, "T", [], 0, 0, DEFAULT_USAGE⟩], []⟩ :
        StoreState).sessions.find? (fun s => s.id == "b") = none ∧
    (renameSession 10 5 "b" "new" ⟨[⟨"a", none, "T", [], 0, 0, DEFAULT_USAGE⟩], []⟩
        = ⟨[⟨"a", none, "T", [], 0, 0, DEFAULT_USAGE⟩], []⟩ ∧
      addMessage 10 5 "b" ⟨"m", Role.user, "hi", 0, none, none⟩
          ⟨[⟨"a", none, "T", [], 0, 0, DEFAULT_USAGE⟩], []⟩
        = ⟨[⟨"a", none, "T", [], 0, 0, DEFAULT_USAGE⟩], []⟩ ∧
      updateSdkSessionId 10 "b" "sdk"
          ⟨[⟨"a", none, "T", [], 0, 0, DEFAULT_USAGE⟩], []⟩
        = ⟨[⟨"a", none, "T", [], 0, 0, DEFAULT_USAGE⟩], []⟩ ∧
      updateUsage 10 "b" ⟨1, 1, 2, 0⟩
          ⟨[⟨"a", none, "T", [], 0, 0, DEFAULT_USAGE⟩], []⟩
        = ⟨[⟨"a", none, "T", [], 0, 0, DEFAULT_USAGE⟩], []⟩) :=
  ⟨rfl, C10_missing_session_noop 10 5 "b" "new" "sdk"
    ⟨"m", Role.user, "hi", 0, none, none⟩ ⟨1, 1, 2, 0⟩
    ⟨[⟨"a", none, "T", [], 0, 0, DEFAULT_USAGE⟩], []⟩ rfl⟩

/-! ## C3 -/

/-- Example sessions with `updatedAt` 1, 2, 3 for the session-cap claim. -/
def capSessA : ChatSession := ⟨"a", none, "TA", [], 0, 1, DEFAULT_USAGE⟩

def capSessB : ChatSession := ⟨"b", none, "TB", [], 0, 2, DEFAULT_USAGE⟩

def capSessC : ChatSession := ⟨"c", none, "TC", [], 0, 3, DEFAULT_USAGE⟩

/-- A store holding the three example sessions in memory. -/
def capStore : StoreState := ⟨[capSessA, capSessB, capSessC], []⟩

/-- C3 (amended): with `maxSessionHistory = 2` and three in-memory
sessions with `updatedAt` 1, 2, 3, persisting truncates only the durable
copy: the persisted list contains exactly the sessions with `updatedAt`
3 and 2, in that order, and a store reloaded from it lists exactly those
two; `getAllSessions` on the live store still returns all three sessions
(newest first), because the in-memory map is never truncated. -/
theorem C3_session_cap (a b c : ChatSession) (st : StoreState)
    (ha : a.updatedAt = 1) (hb : b.updatedAt = 2) (hc : c.updatedAt = 3)
    (hs : st.sessions = [a, b, c]) :
    (persistSessions 2 st).data = [c, b] ∧
    getAllSessions (loadAllSessions (persistSessions 2 st)) = [c, b] ∧
    getAllSessions (persistSessions 2 st) = [c, b, a] := by
  have hsort : sortByUpdatedAtDesc [a, b, c] = [c, b, a] := by
    simp [sortByUpdatedAtDesc, insertByUpdatedAtDesc, ha, hb, hc]
  have hsort2 : sortByUpdatedAtDesc [c, b] = [c, b] := by
    simp [sortByUpdatedAtDesc, insertByUpdatedAtDesc, hb, hc]
  refine ⟨?_, ?_, ?_⟩
  · simp [persistSessions, hs, hsort]
  · simp [getAllSessions, loadAllSessions, persistSessions, hs, hsort, hsort2]
  · simp [getAllSessions, persistSessions, hs, hsort]

/-- C3 counterexample: on the live store, right after a mutating
operation (here `updateSdkSessionId`, which does not change any
`updatedAt`), `getAllSessions` still returns all three sessions — not
the two the claim asserts — because eviction applies only to the
persisted copy. -/
theorem C3_counterexample :
    (getAllSessions (updateSdkSessionId 2 "a" "sdk-1" capStore)).length ≠ 2 := by
  decide

/-- C3 witness: the amended theorem applied to the three example
sessions. -/
theorem C3_session_cap_witness :
    capSessA.updatedAt = 1 ∧ capSessB.updatedAt = 2 ∧ capSessC.updatedAt = 3 ∧
    capStore.sessions = [capSessA, capSessB, capSessC] ∧
    ((persistSessions 2 capStore).data = [capSessC, capSessB] ∧
      getAllSessions (loadAllSessions (persistSessions 2 capStore))
        = [capSessC, capSessB] ∧
      getAllSessions (persistSessions 2 capStore)
        = [capSessC, capSessB, capSessA]) :=
  ⟨rfl, rfl, rfl, rfl, C3_session_cap capSessA capSessB capSessC capStore rfl rfl rfl rfl⟩

/-! ## C4 -/

/-- C4: when the transport faults mid-stream the service call rejects
with that same error and yields no partial turn; the orchestrator then
keeps the optimistic user message as the only addition to the
transcript (no assistant message), clears the streaming slot, surfaces
the error message verbatim, and clears the loading flag. -/
theorem C4_transport_failure (st : OrchState) (content msgId asstId sid e : String)
    (now : Nat) (pfx : List SDKMsg)
    (hc : jsTrim content ≠ "")
    (hl : st.isLoading = false)
    (hs : st.hasSession = true) :
    serviceSendMessage sid pfx (some e) = Except.error e ∧
    orchSendMessage st content msgId asstId now (serviceSendMessage sid pfx (some e))
      = { st with
            messages := st.messages ++
              [{ id := msgId, role := Role.user, content := content,
                 timestamp := now, toolResults := none, editorContext := none }],
            streamingContent := "", error := some e, isLoading := false } := by
  refine ⟨rfl, ?_⟩
  have hguard : (jsTrim content == "" || st.isLoading || !st.hasSession) = false := by
    simp [hc, hl, hs]
  simp [orchSendMessage, serviceSendMessage, hguard]

/-- C4 witness: the theorem applied to a transport that yields one
text-delta `"Hel"` and then throws `"boom"`. -/
theorem C4_transport_failure_witness :
    jsTrim "Hi" ≠ "" ∧
    (⟨[], "", none, false, true⟩ : OrchState).isLoading = false ∧
    (⟨[], "", none, false, true⟩ : OrchState).hasSession = true ∧
    (serviceSendMessage "sid" [SDKMsg.streamDelta "sid" "Hel"] (some "boom")
        = Except.error "boom" ∧
      orchSendMessage ⟨[], "", none, false, true⟩ "Hi" "m1" "m2" 9
          (serviceSendMessage "sid" [SDKMsg.streamDelta "sid" "Hel"] (some "boom"))
        = { (⟨[], "", none, false, true⟩ : OrchState) with
              messages := ([] : List ChatMessage) ++
                [{ id := "m1", role := Role.user, content := "Hi",
                   timestamp := 9, toolResults := none, editorContext := none }],
              streamingContent := "", error := some "boom", isLoading := false }) :=
  ⟨by decide, rfl, rfl,
    C4_transport_failure ⟨[], "", none, false, true⟩ "Hi" "m1" "m2" "sid" "boom" 9
      [SDKMsg.streamDelta "sid" "Hel"] (by decide) rfl rfl⟩

/-! ## Frame lemmas for the invocation list -/

lemma updateFirst_no_match (p : ToolResult → Bool) (f : ToolResult → ToolResult)
    (l : List ToolResult) (h : ∀ t ∈ l, p t = false) :
    updateFirst p f l = l := by
  induction l with
  | nil => rfl
  | cons t ts ih =>
      have ht := h t (by simp)
      simp [updateFirst, ht, ih (fun x hx => h x (by simp [hx]))]

lemma applyUserBlocks_cons_tool (tid : String) (c : TRContent) (e : Bool)
    (bs : List UBlock) (trs : List ToolResult) :
    applyUserBlocks (UBlock.toolResult tid c e :: bs) trs
      = applyUserBlocks bs
          (updateFirst (fun t => t.id == tid) (applyUserToolResult c e) trs) := rfl

lemma applyUserBlocks_cons_other (bs : List UBlock) (trs : List ToolResult) :
    applyUserBlocks (UBlock.other :: bs) trs = applyUserBlocks bs trs := rfl

lemma applyUserBlocks_nil (bs : List UBlock) : applyUserBlocks bs [] = [] := by
  induction bs with
  | nil => rfl
  | cons b bs ih =>
      cases b with
      | toolResult tid c e => rw [applyUserBlocks_cons_tool, updateFirst]; exact ih
      | other => rw [applyUserBlocks_cons_other]; exact ih

lemma applyUserBlocks_no_match (bs : List UBlock) (trs : List ToolResult)
    (h : ∀ tid ∈ bs.filterMap (fun b => match b with
          | UBlock.toolResult tid _ _ => some tid
          | UBlock.other => none),
        ∀ t ∈ trs, (t.id == tid) = false) :
    applyUserBlocks bs trs = trs := by
  induction bs with
  | nil => rfl
  | cons b bs ih =>
      cases b with
      | toolResult tid c e =>
          have htid : ∀ t ∈ trs, (t.id == tid) = false := h tid (by simp)
          rw [applyUserBlocks_cons_tool, updateFirst_no_match _ _ _ htid]
          exact ih (fun x hx => h x (by simp [hx]))
      | other =>
          rw [applyUserBlocks_cons_other]
          exact ih (fun x hx => h x (by simpa using hx))

/-! ## C9 -/

/-- C9: a `tool_result`/`tool_progress` message (or a user message with
`tool_result` blocks) whose correlation ids match no previously
announced invocation is silently dropped: the whole turn state is
unchanged except for the unconditional `sdkSessionId` overwrite — no
invocation is created, none is modified, and the reducer is a total
function, so no error is raised. -/
theorem C9_correlation_miss (st : TurnState) (m : SDKMsg)
    (hk : isResultKind m = true)
    (hmiss : ∀ tid ∈ carriedIds m, ∀ t ∈ st.toolResults, (t.id == tid) = false) :
    processMsg st m = { st with sdkSessionId := m.sessionId } := by
  cases m with
  | toolResultMsg sid prog tid content output is_error =>
      have h := hmiss tid (by simp [carriedIds])
      simp [processMsg, SDKMsg.sessionId, updateFirst_no_match _ _ _ h]
  | user sid content =>
      cases content with
      | absent => simp [isResultKind] at hk
      | str s => simp [isResultKind] at hk
      | arr bs =>
          have h : ∀ tid ∈ bs.filterMap (fun b => match b with
                | UBlock.toolResult tid _ _ => some tid
                | UBlock.other => none),
              ∀ t ∈ st.toolResults, (t.id == tid) = false := by
            simpa [carriedIds] using hmiss
          simp [processMsg, SDKMsg.sessionId, applyUserBlocks_no_match _ _ h]
  | system sid subtype slash pre trig message content => simp [isResultKind] at hk
  | streamDelta sid d => simp [isResultKind] at hk
  | streamOther sid => simp [isResultKind] at hk
  | assistant sid blocks usage => simp [isResultKind] at hk
  | result sid res usage => simp [isResultKind] at hk
  | unknown sid => simp [isResultKind] at hk

/-- Turn state with one announced invocation `"a"`, for the C9 witness. -/
def missTurnState : TurnState :=
  { responseContent := "", toolResults := [⟨"Read", "i", "", false, "a"⟩],
    sdkSessionId := "", usage := none,
    availableCommands := DEFAULT_SLASH_COMMANDS, streamUpdates := [] }

/-- A tool-result message whose correlation id `"b"` matches nothing. -/
def missMsg : SDKMsg :=
  SDKMsg.toolResultMsg "s" false "b" (TRContent.str "out") none true

/-- C9 witness: the theorem applied to a one-invocation turn state and a
result event with a stale id. -/
theorem C9_correlation_miss_witness :
    isResultKind missMsg = true ∧
    (∀ tid ∈ carriedIds missMsg, ∀ t ∈ missTurnState.toolResults,
      (t.id == tid) = false) ∧
    processMsg missTurnState missMsg
      = { missTurnState with sdkSessionId := missMsg.sessionId } :=
  ⟨by decide, by decide, C9_correlation_miss missTurnState missMsg (by decide) (by decide)⟩

/-! ## C8 -/

lemma processMsg_preservesResponse (st : TurnState) (m : SDKMsg)
    (hne : st.responseContent ≠ "")
    (hp : preservesResponse m = true) :
    (processMsg st m).responseContent = st.responseContent := by
  have h0 : (st.responseContent == "") = false := by simpa using hne
  cases m with
  | system sid subtype slash pre trig message content =>
      rcases message with _ | s <;> rcases content with _ | bs <;>
        rcases slash with _ | cmds <;>
        by_cases hinit : (subtype == "init") = true <;>
        simp_all [processMsg, preservesResponse, h0, Bool.not_eq_true']
  | streamDelta sid d =>
      simp only [preservesResponse] at hp
      simp [processMsg, hp]
  | streamOther sid => rfl
  | assistant sid blocks usage =>
      simp only [preservesResponse] at hp
      rcases usage with _ | u <;> simp [processMsg, hp]
  | toolResultMsg sid prog tid content output is_error => rfl
  | user sid content =>
      cases content with
      | absent => rfl
      | str s =>
          simp only [preservesResponse, Option.isNone_iff_eq_none] at hp
          simp [processMsg, hp]
      | arr bs => rfl
  | result sid res usage =>
      simp only [preservesResponse] at hp
      rcases res with _ | r <;> rcases usage with _ | u <;> simp_all [processMsg]
  | unknown sid => rfl

lemma processMsg_toolResults_nil (st : TurnState) (m : SDKMsg)
    (h0 : st.toolResults = [])
    (ha : announcesNothing m = true) :
    (processMsg st m).toolResults = [] := by
  cases m with
  | system sid subtype slash pre trig message content =>
      simp only [processMsg]
      repeat' split
      all_goals simpa using h0
  | streamDelta sid d =>
      by_cases hd : (d == "") = true <;> simp_all [processMsg]
  | streamOther sid => simpa [processMsg] using h0
  | assistant sid blocks usage =>
      have hnil : blocks.filterMap (fun b => match b with
          | ABlock.toolUse id name input =>
              some (⟨name, input, "", false, id⟩ : ToolResult)
          | _ => none) = [] := by
        rw [List.filterMap_eq_nil_iff]
        intro b hb
        simp only [announcesNothing, List.all_eq_true] at ha
        have := ha b hb
        cases b <;> simp_all
      rcases usage with _ | u <;> simp [processMsg, h0, hnil] <;> split <;> rfl
  | toolResultMsg sid prog tid content output is_error =>
      simp [processMsg, h0, updateFirst]
  | user sid content =>
      cases content with
      | absent => simpa [processMsg] using h0
      | str s =>
          cases hst : extractStdout s <;> simp_all [processMsg]
      | arr bs => simp [processMsg, h0, applyUserBlocks_nil]
  | result sid res usage =>
      rcases res with _ | r <;> rcases usage with _ | u <;>
        simp_all [processMsg] <;> split <;> rfl
  | unknown sid => simpa [processMsg] using h0

/-- A stream of response-preserving, nothing-announcing messages changes
neither a non-empty `responseContent` nor an empty invocation list. -/
lemma processAll_preserved (ms : List SDKMsg) (st : TurnState)
    (hne : st.responseContent ≠ "")
    (hp : ∀ m ∈ ms, preservesResponse m = true)
    (ha : ∀ m ∈ ms, announcesNothing m = true)
    (h0 : st.toolResults = []) :
    (processAll st ms).responseContent = st.responseContent ∧
    (processAll st ms).toolResults = [] := by
  induction ms generalizing st with
  | nil => exact ⟨rfl, h0⟩
  | cons m ms ih =>
      have h1 := processMsg_preservesResponse st m hne (hp m (by simp))
      have h2 := processMsg_toolResults_nil st m h0 (ha m (by simp))
      rw [processAll_cons]
      have hrest := ih (processMsg st m) (by rw [h1]; exact hne)
        (fun x hx => hp x (by simp [hx])) (fun x hx => ha x (by simp [hx])) h2
      exact ⟨by rw [hrest.1, h1], hrest.2⟩

/-- C8: a stream whose first message is a system/init message (arriving
while `responseText` is still empty) followed only by messages that
neither replace the response text nor announce tool use completes with
the fixed placeholder as `responseText` and an empty tool-invocation
list (`toolResults` is `undefined` on the assembled response). -/
theorem C8_clear_placeholder (sid s0 : String) (cmds : Option (List String))
    (ms : List SDKMsg)
    (hp : ∀ m ∈ ms, preservesResponse m = true)
    (ha : ∀ m ∈ ms, announcesNothing m = true) :
    (runStream (SDKMsg.system sid "init" cmds none none none none :: ms)).responseContent
        = "Conversation cleared. Starting fresh session." ∧
    (runStream (SDKMsg.system sid "init" cmds none none none none :: ms)).toolResults
        = [] ∧
    ∃ resp, serviceSendMessage s0
        (SDKMsg.system sid "init" cmds none none none none :: ms) none
        = Except.ok resp ∧
      resp.content = "Conversation cleared. Starting fresh session." ∧
      resp.toolResults = none := by
  have hstep :
      (processMsg initState (SDKMsg.system sid "init" cmds none none none none)).responseContent
          = "Conversation cleared. Starting fresh session." ∧
      (processMsg initState (SDKMsg.system sid "init" cmds none none none none)).toolResults
          = [] := by
    cases cmds <;> simp [processMsg, initState, clearPlaceholder]
  have hrun := processAll_preserved ms
    (processMsg initState (SDKMsg.system sid "init" cmds none none none none))
    (by rw [hstep.1]; decide) hp ha hstep.2
  have hcontent :
      (runStream (SDKMsg.system sid "init" cmds none none none none :: ms)).responseContent
        = "Conversation cleared. Starting fresh session." := by
    rw [runStream, processAll_cons, hrun.1, hstep.1]
  have htools :
      (runStream (SDKMsg.system sid "init" cmds none none none none :: ms)).toolResults
        = [] := by
    rw [runStream, processAll_cons]
    exact hrun.2
  refine ⟨hcontent, htools, ?_⟩
  refine ⟨mkAgentResponse s0 (runStream (SDKMsg.system sid "init" cmds none none none none :: ms)), rfl, ?_, ?_⟩
  · exact hcontent
  · simp [mkAgentResponse, htools]

/-- C8 witness: the theorem applied to the one-message stream consisting
of a bare system/init message. -/
theorem C8_clear_placeholder_witness :
    (∀ m ∈ ([] : List SDKMsg), preservesResponse m = true) ∧
    (∀ m ∈ ([] : List SDKMsg), announcesNothing m = true) ∧
    ((runStream [SDKMsg.system "sid" "init" none none none none none]).responseContent
        = "Conversation cleared. Starting fresh session." ∧
      (runStream [SDKMsg.system "sid" "init" none none none none none]).toolResults = [] ∧
      ∃ resp, serviceSendMessage "local"
          [SDKMsg.system "sid" "init" none none none none none] none
          = Except.ok resp ∧
        resp.content = "Conversation cleared. Starting fresh session." ∧
        resp.toolResults = none) :=
  ⟨by simp, by simp,
    C8_clear_placeholder "sid" "local" none [] (by simp) (by simp)⟩

/-! ## C2: correlation-id tracking through the whole stream -/

lemma applyToolResult_id (c : TRContent) (o : Option String) (e : Bool)
    (t : ToolResult) : (applyToolResult c o e t).id = t.id := by
  simp only [applyToolResult]
  repeat' split
  all_goals rfl

lemma applyUserToolResult_id (c : TRContent) (e : Bool) (t : ToolResult) :
    (applyUserToolResult c e t).id = t.id := by
  unfold applyUserToolResult
  cases c <;> rfl

/-- `applyToolResult` changes only the `output` field and sets
`isError`. -/
lemma applyToolResult_eta (c : TRContent) (o : Option String) (e : Bool)
    (t : ToolResult) :
    applyToolResult c o e t
      = { t with output := (applyToolResult c o e t).output, isError := e } := by
  simp only [applyToolResult]
  repeat' split
  all_goals rfl

lemma applyToolResult_shape (c : TRContent) (o : Option String) (e : Bool)
    (t : ToolResult) :
    ∃ out, applyToolResult c o e t = { t with output := out, isError := e } :=
  ⟨(applyToolResult c o e t).output, applyToolResult_eta c o e t⟩

lemma applyUserToolResult_shape (c : TRContent) (e : Bool) (t : ToolResult) :
    ∃ out, applyUserToolResult c e t = { t with output := out, isError := e } := by
  unfold applyUserToolResult
  cases c <;> exact ⟨_, rfl⟩

/-- A truthy `content` payload with no `output` field writes exactly its
extracted text and the error flag. -/
lemma applyToolResult_of_truthyContentText (c : TRContent) (e : Bool)
    (t : ToolResult) (out : String) (hc : truthyContentText c = some out) :
    applyToolResult c none e t = { t with output := out, isError := e } := by
  cases c with
  | absent => simp [truthyContentText] at hc
  | str s =>
      by_cases hs : (s == "") = true
      · rw [truthyContentText, if_pos hs] at hc
        exact Option.noConfusion hc
      · rw [truthyContentText, if_neg hs] at hc
        injection hc with hc
        subst hc
        simp [applyToolResult, hs]
  | arr bs =>
      rw [truthyContentText] at hc
      injection hc with hc
      subst hc
      simp [applyToolResult]

lemma applyUserToolResult_of_contentText (c : TRContent) (e : Bool) (t : ToolResult)
    (out : String) (hc : contentText c = some out) :
    applyUserToolResult c e t = { t with output := out, isError := e } := by
  cases c <;> simp [contentText] at hc <;> simp [applyUserToolResult, ← hc]

lemma filter_updateFirst_disjoint (p q : ToolResult → Bool) (f : ToolResult → ToolResult)
    (l : List ToolResult)
    (hpq : ∀ t, p t = true → q t = false)
    (hf : ∀ t, q (f t) = q t) :
    (updateFirst p f l).filter q = l.filter q := by
  induction l with
  | nil => rfl
  | cons t ts ih =>
      by_cases hp : p t = true
      · have hq : q t = false := hpq t hp
        have hqf : q (f t) = false := by rw [hf]; exact hq
        simp [updateFirst, hp, List.filter_cons, hq, hqf]
      · have hp' : p t = false := by simpa using hp
        by_cases hq : q t = true <;>
          simp [updateFirst, hp', List.filter_cons, hq, ih]

lemma filter_updateFirst_same (q : ToolResult → Bool) (f : ToolResult → ToolResult)
    (l : List ToolResult) (hf : ∀ t, q (f t) = q t) :
    (updateFirst q f l).filter q = updateFirst q f (l.filter q) := by
  induction l with
  | nil => rfl
  | cons t ts ih =>
      by_cases hq : q t = true
      · have hqf : q (f t) = true := by rw [hf]; exact hq
        simp [updateFirst, List.filter_cons, hq, hqf]
      · have hq' : q t = false := by simpa using hq
        simp [updateFirst, List.filter_cons, hq', ih]

lemma filter_singleton_pred {q : ToolResult → Bool} {l : List ToolResult}
    {inv : ToolResult} (h : l.filter q = [inv]) : q inv = true := by
  have hmem : inv ∈ l.filter q := by rw [h]; simp
  exact (List.mem_filter.mp hmem).2

lemma updateFirst_singleton (q : ToolResult → Bool) (f : ToolResult → ToolResult)
    (inv : ToolResult) (hq : q inv = true) :
    updateFirst q f [inv] = [f inv] := by
  simp [updateFirst, hq]

/-- The invocations appended by an assistant message, restricted to
correlation id `c`, are exactly the announcements of `c` in its blocks. -/
lemma filter_filterMap_toolUse (c : String) (blocks : List ABlock) :
    (blocks.filterMap (fun b => match b with
        | ABlock.toolUse id name input =>
            some (⟨name, input, "", false, id⟩ : ToolResult)
        | _ => none)).filter (fun t => t.id == c)
      = (blocks.filterMap (fun b => match b with
          | ABlock.toolUse id name input =>
              if id == c then some (name, input) else none
          | _ => none)).map (fun p => (⟨p.1, p.2, "", false, c⟩ : ToolResult)) := by
  induction blocks with
  | nil => rfl
  | cons b bs ih =>
      cases b with
      | text t => simpa using ih
      | other => simpa using ih
      | toolUse id name input =>
          by_cases hid : (id == c) = true
          · have hc : id = c := by simpa using hid
            subst hc
            simp [List.filterMap_cons, List.filter_cons, hid, ih]
          · have hne : ¬ id = c := by simpa using hid
            simp [List.filterMap_cons, List.filter_cons, hne, ih]

/-- `processMsg` frame for the tool-result list of an assistant message. -/
lemma processMsg_assistant_toolResults (st : TurnState) (sid : String)
    (blocks : List ABlock) (usage : Option RawUsage) :
    (processMsg st (SDKMsg.assistant sid blocks usage)).toolResults
      = st.toolResults ++ blocks.filterMap (fun b => match b with
          | ABlock.toolUse id name input =>
              some (⟨name, input, "", false, id⟩ : ToolResult)
          | _ => none) := by
  simp only [processMsg]
  repeat' split
  all_goals rfl

/-- `processMsg` leaves the invocation list unchanged for every message
kind that neither announces tool use nor carries tool results. -/
lemma processMsg_toolResults_frame (st : TurnState) (m : SDKMsg)
    (hk : isResultKind m = false)
    (hassistant : ∀ sid blocks usage, m ≠ SDKMsg.assistant sid blocks usage) :
    (processMsg st m).toolResults = st.toolResults := by
  cases m with
  | assistant sid blocks usage => exact absurd rfl (hassistant sid blocks usage)
  | toolResultMsg sid prog tid content output is_error => simp [isResultKind] at hk
  | user sid content =>
      cases content with
      | absent => rfl
      | str s =>
          simp only [processMsg]
          repeat' split
          all_goals rfl
      | arr bs => simp [isResultKind] at hk
  | system sid subtype slash pre trig message content =>
      simp only [processMsg]
      repeat' split
      all_goals rfl
  | streamDelta sid d =>
      simp only [processMsg]
      repeat' split
      all_goals rfl
  | result sid res usage =>
      simp only [processMsg]
      repeat' split
      all_goals rfl
  | streamOther sid => rfl
  | unknown sid => rfl

lemma filter_applyUserBlocks_empty (c : String) (bs : List UBlock)
    (trs : List ToolResult)
    (h : trs.filter (fun t => t.id == c) = []) :
    (applyUserBlocks bs trs).filter (fun t => t.id == c) = [] := by
  induction bs generalizing trs with
  | nil => exact h
  | cons b bs ih =>
      cases b with
      | other => rw [applyUserBlocks_cons_other]; exact ih trs h
      | toolResult tid cc e =>
          rw [applyUserBlocks_cons_tool]
          apply ih
          by_cases htid : (tid == c) = true
          · have hc : tid = c := by simpa using htid
            subst hc
            rw [filter_updateFirst_same _ _ _
              (fun (t : ToolResult) => by rw [applyUserToolResult_id]), h]
            rfl
          · have hpq : ∀ t : ToolResult, ((t.id == tid) = true) → ((t.id == c) = false) := by
              intro t hpt
              have ht : t.id = tid := by simpa using hpt
              rw [ht]
              simpa using htid
            rw [filter_updateFirst_disjoint _ _ _ _ hpq
              (fun (t : ToolResult) => by rw [applyUserToolResult_id])]
            exact h

lemma filter_applyUserBlocks_no_c (c : String) (bs : List UBlock)
    (trs : List ToolResult)
    (h : ∀ b ∈ bs, (match b with
        | UBlock.toolResult tid _ _ => tid == c
        | UBlock.other => false) = false) :
    (applyUserBlocks bs trs).filter (fun t => t.id == c)
      = trs.filter (fun t => t.id == c) := by
  induction bs generalizing trs with
  | nil => rfl
  | cons b bs ih =>
      cases b with
      | other =>
          rw [applyUserBlocks_cons_other]
          exact ih trs (fun x hx => h x (by simp [hx]))
      | toolResult tid cc e =>
          have htid : (tid == c) = false := by
            simpa using h _ (List.mem_cons_self _ _)
          have hpq : ∀ t : ToolResult, ((t.id == tid) = true) → ((t.id == c) = false) := by
            intro t hpt
            have ht : t.id = tid := by simpa using hpt
            rw [ht]
            exact htid
          rw [applyUserBlocks_cons_tool, ih _ (fun x hx => h x (by simp [hx]))]
          exact filter_updateFirst_disjoint _ _ _ _ hpq
            (fun (t : ToolResult) => by rw [applyUserToolResult_id])

lemma filter_applyUserBlocks_singleton (c : String) (bs : List UBlock)
    (trs : List ToolResult) (inv : ToolResult)
    (hinv : trs.filter (fun t => t.id == c) = [inv]) :
    ∃ out e, (applyUserBlocks bs trs).filter (fun t => t.id == c)
        = [{ inv with output := out, isError := e }] := by
  induction bs generalizing trs inv with
  | nil => exact ⟨inv.output, inv.isError, hinv⟩
  | cons b bs ih =>
      cases b with
      | other => rw [applyUserBlocks_cons_other]; exact ih trs inv hinv
      | toolResult tid cc e =>
          rw [applyUserBlocks_cons_tool]
          by_cases htid : (tid == c) = true
          · have hc : c = tid := Eq.symm (by simpa using htid)
            subst hc
            have hq := filter_singleton_pred hinv
            obtain ⟨o', hfo⟩ := applyUserToolResult_shape cc e inv
            have hstep :
                (updateFirst (fun t => t.id == c) (applyUserToolResult cc e)
                    trs).filter (fun t => t.id == c)
                  = [{ inv with output := o', isError := e }] := by
              rw [filter_updateFirst_same _ _ _
                (fun (t : ToolResult) => by rw [applyUserToolResult_id]), hinv,
                updateFirst_singleton _ _ _ hq, hfo]
            obtain ⟨o2, e2, h2⟩ := ih _ _ hstep
            exact ⟨o2, e2, h2⟩
          · have hpq : ∀ t : ToolResult, ((t.id == tid) = true) → ((t.id == c) = false) := by
              intro t hpt
              have ht : t.id = tid := by simpa using hpt
              rw [ht]
              simpa using htid
            have hstep :
                (updateFirst (fun t => t.id == tid) (applyUserToolResult cc e)
                    trs).filter (fun t => t.id == c) = [inv] := by
              rw [filter_updateFirst_disjoint _ _ _ _ hpq
                (fun (t : ToolResult) => by rw [applyUserToolResult_id])]
              exact hinv
            exact ih _ _ hstep

lemma filter_applyUserBlocks_final (c out : String) (errB : Bool) (cnt : TRContent)
    (bs : List UBlock) (trs : List ToolResult) (inv : ToolResult)
    (hinv : trs.filter (fun t => t.id == c) = [inv])
    (hbs : bs.filterMap (fun b => match b with
        | UBlock.toolResult tid cnt e => if tid == c then some (cnt, e) else none
        | UBlock.other => none) = [(cnt, errB)])
    (hcnt : contentText cnt = some out) :
    (applyUserBlocks bs trs).filter (fun t => t.id == c)
      = [{ inv with output := out, isError := errB }] := by
  revert hbs
  induction bs generalizing trs inv with
  | nil => intro hbs; simp at hbs
  | cons b bs ih =>
      intro hbs
      cases b with
      | other =>
          rw [applyUserBlocks_cons_other]
          have hbs' : bs.filterMap (fun b => match b with
              | UBlock.toolResult tid cnt e =>
                  if tid == c then some (cnt, e) else none
              | UBlock.other => none) = [(cnt, errB)] := by simpa using hbs
          exact ih trs inv hinv hbs'
      | toolResult tid cc e =>
          by_cases htid : (tid == c) = true
          · have hc : c = tid := Eq.symm (by simpa using htid)
            subst hc
            rw [List.filterMap_cons] at hbs
            simp only [htid, if_true] at hbs
            obtain ⟨hpair, hrest⟩ := List.cons_eq_cons.mp hbs
            injection hpair with hcc he
            subst hcc
            subst he
            rw [applyUserBlocks_cons_tool]
            have hq := filter_singleton_pred hinv
            have hnone := List.filterMap_eq_nil_iff.mp hrest
            have hno : ∀ b ∈ bs, (match b with
                | UBlock.toolResult tid _ _ => tid == c
                | UBlock.other => false) = false := by
              intro b hb
              cases b with
              | other => rfl
              | toolResult tid2 cc2 e2 =>
                  have h2 := hnone _ hb
                  by_cases h3 : (tid2 == c) = true
                  · simp [h3] at h2
                  · simpa using h3
            rw [filter_applyUserBlocks_no_c c bs _ hno]
            rw [filter_updateFirst_same _ _ _
              (fun (t : ToolResult) => by rw [applyUserToolResult_id]), hinv,
              updateFirst_singleton _ _ _ hq,
              applyUserToolResult_of_contentText _ _ inv out hcnt]
          · have htid' : (tid == c) = false := by simpa using htid
            rw [List.filterMap_cons] at hbs
            simp only [htid', Bool.false_eq_true, if_false] at hbs
            have hpq : ∀ t : ToolResult, ((t.id == tid) = true) → ((t.id == c) = false) := by
              intro t hpt
              have ht : t.id = tid := by simpa using hpt
              rw [ht]
              exact htid'
            rw [applyUserBlocks_cons_tool]
            have hstep :
                (updateFirst (fun t => t.id == tid) (applyUserToolResult cc e)
                    trs).filter (fun t => t.id == c) = [inv] := by
              rw [filter_updateFirst_disjoint _ _ _ _ hpq
                (fun (t : ToolResult) => by rw [applyUserToolResult_id])]
              exact hinv
            exact ih _ _ hstep hbs

lemma frame_system (st : TurnState) (sid subtype : String)
    (slash : Option (List String)) (pre : Option Nat) (trig : Option String)
    (message : Option String) (content : Option (List TBlock)) :
    (processMsg st (SDKMsg.system sid subtype slash pre trig message content)).toolResults
      = st.toolResults :=
  processMsg_toolResults_frame st _ rfl (fun _ _ _ => by simp)

lemma frame_streamDelta (st : TurnState) (sid d : String) :
    (processMsg st (SDKMsg.streamDelta sid d)).toolResults = st.toolResults :=
  processMsg_toolResults_frame st _ rfl (fun _ _ _ => by simp)

lemma frame_result (st : TurnState) (sid : String) (res : Option String)
    (usage : Option RawUsage) :
    (processMsg st (SDKMsg.result sid res usage)).toolResults = st.toolResults :=
  processMsg_toolResults_frame st _ rfl (fun _ _ _ => by simp)

lemma frame_userStr (st : TurnState) (sid s : String) :
    (processMsg st (SDKMsg.user sid (UserContent.str s))).toolResults
      = st.toolResults :=
  processMsg_toolResults_frame st _ rfl (fun _ _ _ => by simp)

/-- A message that announces nothing for `c` keeps the `c`-invocations
empty. -/
lemma invs_processMsg_empty (c : String) (st : TurnState) (m : SDKMsg)
    (hann : announcedWith c m = [])
    (h0 : invocationsFor c st = []) :
    invocationsFor c (processMsg st m) = [] := by
  cases m with
  | assistant sid blocks usage =>
      simp only [announcedWith] at hann
      rw [invocationsFor, processMsg_assistant_toolResults, List.filter_append,
        filter_filterMap_toolUse, hann]
      rw [invocationsFor] at h0
      simp [h0]
  | toolResultMsg sid prog tid content output is_error =>
      rw [invocationsFor] at h0 ⊢
      have hfr : (processMsg st
          (SDKMsg.toolResultMsg sid prog tid content output is_error)).toolResults
        = updateFirst (fun t => t.id == tid)
            (applyToolResult content output is_error) st.toolResults := rfl
      rw [hfr]
      by_cases htid : (tid == c) = true
      · have hc : c = tid := Eq.symm (by simpa using htid)
        subst hc
        rw [filter_updateFirst_same _ _ _
          (fun (t : ToolResult) => by rw [applyToolResult_id]), h0]
        rfl
      · have hpq : ∀ t : ToolResult, ((t.id == tid) = true) → ((t.id == c) = false) := by
          intro t hpt
          have ht : t.id = tid := by simpa using hpt
          rw [ht]
          simpa using htid
        rw [filter_updateFirst_disjoint _ _ _ _ hpq
          (fun (t : ToolResult) => by rw [applyToolResult_id])]
        exact h0
  | user sid content =>
      cases content with
      | absent => exact h0
      | str s =>
          rw [invocationsFor] at h0 ⊢
          rw [frame_userStr]
          exact h0
      | arr bs =>
          rw [invocationsFor] at h0 ⊢
          have hfr : (processMsg st (SDKMsg.user sid (UserContent.arr bs))).toolResults
              = applyUserBlocks bs st.toolResults := rfl
          rw [hfr]
          exact filter_applyUserBlocks_empty c bs st.toolResults h0
  | system sid subtype slash pre trig message content =>
      rw [invocationsFor] at h0 ⊢
      rw [frame_system]
      exact h0
  | streamDelta sid d =>
      rw [invocationsFor] at h0 ⊢
      rw [frame_streamDelta]
      exact h0
  | result sid res usage =>
      rw [invocationsFor] at h0 ⊢
      rw [frame_result]
      exact h0
  | streamOther sid => exact h0
  | unknown sid => exact h0

/-- A message that announces nothing for `c` keeps a unique
`c`-invocation unique, preserving its tool, input and id. -/
lemma invs_processMsg_singleton (c : String) (st : TurnState) (m : SDKMsg)
    (inv : ToolResult)
    (hann : announcedWith c m = [])
    (hinv : invocationsFor c st = [inv]) :
    ∃ out e, invocationsFor c (processMsg st m)
        = [{ inv with output := out, isError := e }] := by
  cases m with
  | assistant sid blocks usage =>
      simp only [announcedWith] at hann
      refine ⟨inv.output, inv.isError, ?_⟩
      rw [invocationsFor, processMsg_assistant_toolResults, List.filter_append,
        filter_filterMap_toolUse, hann]
      rw [invocationsFor] at hinv
      simp [hinv]
  | toolResultMsg sid prog tid content output is_error =>
      rw [invocationsFor] at hinv
      have hfr : (processMsg st
          (SDKMsg.toolResultMsg sid prog tid content output is_error)).toolResults
        = updateFirst (fun t => t.id == tid)
            (applyToolResult content output is_error) st.toolResults := rfl
      by_cases htid : (tid == c) = true
      · have hc : c = tid := Eq.symm (by simpa using htid)
        subst hc
        have hq := filter_singleton_pred hinv
        obtain ⟨o', hfo⟩ := applyToolResult_shape content output is_error inv
        refine ⟨o', is_error, ?_⟩
        rw [invocationsFor, hfr,
          filter_updateFirst_same _ _ _
            (fun (t : ToolResult) => by rw [applyToolResult_id]),
          hinv, updateFirst_singleton _ _ _ hq, hfo]
      · have hpq : ∀ t : ToolResult, ((t.id == tid) = true) → ((t.id == c) = false) := by
          intro t hpt
          have ht : t.id = tid := by simpa using hpt
          rw [ht]
          simpa using htid
        refine ⟨inv.output, inv.isError, ?_⟩
        rw [invocationsFor, hfr,
          filter_updateFirst_disjoint _ _ _ _ hpq
            (fun (t : ToolResult) => by rw [applyToolResult_id])]
        exact hinv
  | user sid content =>
      cases content with
      | absent => exact ⟨inv.output, inv.isError, hinv⟩
      | str s =>
          refine ⟨inv.output, inv.isError, ?_⟩
          rw [invocationsFor, frame_userStr]
          exact hinv
      | arr bs =>
          rw [invocationsFor] at hinv
          have hfr : (processMsg st (SDKMsg.user sid (UserContent.arr bs))).toolResults
              = applyUserBlocks bs st.toolResults := rfl
          obtain ⟨o2, e2, h2⟩ :=
            filter_applyUserBlocks_singleton c bs st.toolResults inv hinv
          refine ⟨o2, e2, ?_⟩
          rw [invocationsFor, hfr]
          exact h2
  | system sid subtype slash pre trig message content =>
      refine ⟨inv.output, inv.isError, ?_⟩
      rw [invocationsFor, frame_system]
      exact hinv
  | streamDelta sid d =>
      refine ⟨inv.output, inv.isError, ?_⟩
      rw [invocationsFor, frame_streamDelta]
      exact hinv
  | result sid res usage =>
      refine ⟨inv.output, inv.isError, ?_⟩
      rw [invocationsFor, frame_result]
      exact hinv
  | streamOther sid => exact ⟨inv.output, inv.isError, hinv⟩
  | unknown sid => exact ⟨inv.output, inv.isError, hinv⟩

/-- A message that neither announces nor writes for `c` leaves the
`c`-invocations exactly unchanged. -/
lemma invs_processMsg_no_touch (c : String) (st : TurnState) (m : SDKMsg)
    (hann : announcedWith c m = [])
    (hwr : writesResult c m = false) :
    invocationsFor c (processMsg st m) = invocationsFor c st := by
  cases m with
  | assistant sid blocks usage =>
      simp only [announcedWith] at hann
      rw [invocationsFor, processMsg_assistant_toolResults, List.filter_append,
        filter_filterMap_toolUse, hann]
      simp [invocationsFor]
  | toolResultMsg sid prog tid content output is_error =>
      have htid : (tid == c) = false := by simpa [writesResult] using hwr
      have hpq : ∀ t : ToolResult, ((t.id == tid) = true) → ((t.id == c) = false) := by
        intro t hpt
        have ht : t.id = tid := by simpa using hpt
        rw [ht]
        exact htid
      have hfr : (processMsg st
          (SDKMsg.toolResultMsg sid prog tid content output is_error)).toolResults
        = updateFirst (fun t => t.id == tid)
            (applyToolResult content output is_error) st.toolResults := rfl
      rw [invocationsFor, hfr,
        filter_updateFirst_disjoint _ _ _ _ hpq
          (fun (t : ToolResult) => by rw [applyToolResult_id])]
      rfl
  | user sid content =>
      cases content with
      | absent => rfl
      | str s =>
          rw [invocationsFor, frame_userStr]
          rfl
      | arr bs =>
          have hno : ∀ b ∈ bs, (match b with
              | UBlock.toolResult tid _ _ => tid == c
              | UBlock.other => false) = false := by
            simp only [writesResult, List.any_eq_true, not_exists] at hwr
            intro b hb
            cases b with
            | other => rfl
            | toolResult tid2 cc2 e2 =>
                by_cases h3 : (tid2 == c) = true
                · exfalso
                  rw [List.any_eq_false] at hwr
                  have := hwr _ hb
                  simp [h3] at this
                · simpa using h3
          have hfr : (processMsg st (SDKMsg.user sid (UserContent.arr bs))).toolResults
              = applyUserBlocks bs st.toolResults := rfl
          rw [invocationsFor, hfr,
            filter_applyUserBlocks_no_c c bs st.toolResults hno]
          rfl
  | system sid subtype slash pre trig message content =>
      rw [invocationsFor, frame_system]
      rfl
  | streamDelta sid d =>
      rw [invocationsFor, frame_streamDelta]
      rfl
  | result sid res usage =>
      rw [invocationsFor, frame_result]
      rfl
  | streamOther sid => rfl
  | unknown sid => rfl

/-- Processing the (unique) announcement for `c` creates exactly one
invocation for `c`, with empty output and `isError = false`. -/
lemma invs_processMsg_announce (c tn inp : String) (st : TurnState) (m : SDKMsg)
    (hinv : invocationsFor c st = [])
    (hann : announcedWith c m = [(tn, inp)]) :
    invocationsFor c (processMsg st m)
      = [{ tool := tn, input := inp, output := "", isError := false, id := c }] := by
  cases m with
  | assistant sid blocks usage =>
      simp only [announcedWith] at hann
      rw [invocationsFor, processMsg_assistant_toolResults, List.filter_append,
        filter_filterMap_toolUse, hann]
      rw [invocationsFor] at hinv
      simp [hinv]
  | system sid subtype slash pre trig message content => simp [announcedWith] at hann
  | streamDelta sid d => simp [announcedWith] at hann
  | streamOther sid => simp [announcedWith] at hann
  | toolResultMsg sid prog tid content output is_error => simp [announcedWith] at hann
  | user sid content => simp [announcedWith] at hann
  | result sid res usage => simp [announcedWith] at hann
  | unknown sid => simp [announcedWith] at hann

/-- Processing a clean result event for `c` against a unique
`c`-invocation overwrites exactly its output and error flag. -/
lemma invs_processMsg_final (c out : String) (err : Bool) (st : TurnState)
    (m : SDKMsg) (inv : ToolResult)
    (hinv : invocationsFor c st = [inv])
    (hr : finalResultFor c m = some (out, err)) :
    invocationsFor c (processMsg st m)
      = [{ inv with output := out, isError := err }] := by
  cases m with
  | toolResultMsg sid prog tid content output is_error =>
      by_cases htid : (tid == c) = true
      · have hc : c = tid := Eq.symm (by simpa using htid)
        subst hc
        rcases output with _ | o
        · have hr' : (truthyContentText content).map (fun s => (s, is_error))
              = some (out, err) := by
            have h0 : finalResultFor c
                (SDKMsg.toolResultMsg sid prog c content none is_error)
              = (truthyContentText content).map (fun s => (s, is_error)) := by
              simp [finalResultFor]
            rw [← h0]
            exact hr
          rcases hcc : truthyContentText content with _ | s
          · rw [hcc] at hr'
            exact Option.noConfusion hr'
          · rw [hcc] at hr'
            injection hr' with hpair
            injection hpair with hs he
            subst hs
            subst he
            rw [invocationsFor] at hinv
            have hq := filter_singleton_pred hinv
            have hfr : (processMsg st
                (SDKMsg.toolResultMsg sid prog c content none is_error)).toolResults
              = updateFirst (fun t => t.id == c)
                  (applyToolResult content none is_error) st.toolResults := rfl
            rw [invocationsFor, hfr,
              filter_updateFirst_same _ _ _
                (fun (t : ToolResult) => by rw [applyToolResult_id]),
              hinv, updateFirst_singleton _ _ _ hq,
              applyToolResult_of_truthyContentText _ _ inv _ hcc]
        · have h0 : finalResultFor c
              (SDKMsg.toolResultMsg sid prog c content (some o) is_error)
            = none := by
            simp [finalResultFor]
          rw [h0] at hr
          exact Option.noConfusion hr
      · have htid' : (tid == c) = false := by simpa using htid
        have h0 : finalResultFor c
            (SDKMsg.toolResultMsg sid prog tid content output is_error)
          = none := by
          simp [finalResultFor, htid']
        rw [h0] at hr
        exact Option.noConfusion hr
  | user sid content =>
      cases content with
      | absent => simp [finalResultFor] at hr
      | str s => simp [finalResultFor] at hr
      | arr bs =>
          have hr' : (match bs.filterMap (fun b => match b with
              | UBlock.toolResult tid cnt e =>
                  if tid == c then some (cnt, e) else none
              | UBlock.other => none) with
            | [(cnt, e)] => (contentText cnt).map (fun s => (s, e))
            | _ => none) = some (out, err) := hr
          rcases hbs : bs.filterMap (fun b => match b with
              | UBlock.toolResult tid cnt e =>
                  if tid == c then some (cnt, e) else none
              | UBlock.other => none) with _ | ⟨⟨cnt, errB⟩, rest⟩
          · rw [hbs] at hr'
            exact Option.noConfusion hr'
          · rcases rest with _ | ⟨p2, rest2⟩
            · rw [hbs] at hr'
              have hr'' : (contentText cnt).map (fun s => (s, errB))
                  = some (out, err) := hr'
              rcases hcc : contentText cnt with _ | s
              · rw [hcc] at hr''
                exact Option.noConfusion hr''
              · rw [hcc] at hr''
                injection hr'' with hpair
                injection hpair with hs he
                subst hs
                subst he
                rw [invocationsFor] at hinv
                have hfr : (processMsg st
                    (SDKMsg.user sid (UserContent.arr bs))).toolResults
                  = applyUserBlocks bs st.toolResults := rfl
                rw [invocationsFor, hfr]
                exact filter_applyUserBlocks_final c s errB cnt bs
                  st.toolResults inv hinv hbs hcc
            · rw [hbs] at hr'
              exact Option.noConfusion hr'
  | assistant sid blocks usage => simp [finalResultFor] at hr
  | system sid subtype slash pre trig message content => simp [finalResultFor] at hr
  | streamDelta sid d => simp [finalResultFor] at hr
  | streamOther sid => simp [finalResultFor] at hr
  | result sid res usage => simp [finalResultFor] at hr
  | unknown sid => simp [finalResultFor] at hr

lemma invs_processAll_empty (c : String) (ms : List SDKMsg) (st : TurnState)
    (h : ∀ m ∈ ms, announcedWith c m = [])
    (h0 : invocationsFor c st = []) :
    invocationsFor c (processAll st ms) = [] := by
  induction ms generalizing st with
  | nil => exact h0
  | cons m ms ih =>
      rw [processAll_cons]
      exact ih (processMsg st m) (fun x hx => h x (by simp [hx]))
        (invs_processMsg_empty c st m (h m (by simp)) h0)

lemma invs_processAll_singleton (c : String) (ms : List SDKMsg) (st : TurnState)
    (inv : ToolResult)
    (h : ∀ m ∈ ms, announcedWith c m = [])
    (hinv : invocationsFor c st = [inv]) :
    ∃ out e, invocationsFor c (processAll st ms)
        = [{ inv with output := out, isError := e }] := by
  induction ms generalizing st inv with
  | nil => exact ⟨inv.output, inv.isError, hinv⟩
  | cons m ms ih =>
      rw [processAll_cons]
      obtain ⟨o1, e1, hstep⟩ :=
        invs_processMsg_singleton c st m inv (h m (by simp)) hinv
      obtain ⟨o2, e2, h2⟩ :=
        ih (processMsg st m) _ (fun x hx => h x (by simp [hx])) hstep
      exact ⟨o2, e2, h2⟩

lemma invs_processAll_no_touch (c : String) (ms : List SDKMsg) (st : TurnState)
    (h : ∀ m ∈ ms, announcedWith c m = [] ∧ writesResult c m = false) :
    invocationsFor c (processAll st ms) = invocationsFor c st := by
  induction ms generalizing st with
  | nil => rfl
  | cons m ms ih =>
      rw [processAll_cons, ih (processMsg st m) (fun x hx => h x (by simp [hx])),
        invs_processMsg_no_touch c st m (h m (by simp)).1 (h m (by simp)).2]

/-- C2: in any stream decomposed as `p₁ ++ [a] ++ p₂ ++ [r] ++ p₃`, where
`a` is the sole announcement of correlation id `c` (tool `tn`, input
`inp`), `r` is a clean result event for `c` carrying `(out, err)`
(truthy content for a `tool_result`/`tool_progress` message — a
non-empty string, or a block array flattened to its text blocks — or a
user-message `tool_result` block with present content), no other
message announces `c`, and nothing after `r` writes to `c`, the
finished turn contains exactly one `ToolInvocation` for `c`, with the
announced tool and input and the result's output and error flag —
regardless of the number and kind of interleaved events, and with any
earlier result events for `c` inside `p₂` overwritten by `r` (last
write wins). -/
theorem C2_tool_result_correlation (c tn inp out : String) (err : Bool)
    (p₁ p₂ p₃ : List SDKMsg) (a r : SDKMsg)
    (ha : announcedWith c a = [(tn, inp)])
    (hr : finalResultFor c r = some (out, err))
    (h1 : ∀ m ∈ p₁, announcedWith c m = [])
    (h2 : ∀ m ∈ p₂, announcedWith c m = [])
    (h3 : ∀ m ∈ p₃, announcedWith c m = [] ∧ writesResult c m = false) :
    invocationsFor c (runStream (p₁ ++ a :: (p₂ ++ r :: p₃)))
      = [{ tool := tn, input := inp, output := out, isError := err, id := c }] := by
  have e0 : runStream (p₁ ++ a :: (p₂ ++ r :: p₃))
      = processAll (processMsg (processAll (processMsg (processAll initState p₁) a)
          p₂) r) p₃ := by
    rw [runStream, processAll_append, processAll_cons, processAll_append,
      processAll_cons]
  rw [e0]
  have i1 : invocationsFor c (processAll initState p₁) = [] :=
    invs_processAll_empty c p₁ initState h1 rfl
  have i2 := invs_processMsg_announce c tn inp (processAll initState p₁) a i1 ha
  obtain ⟨o2, e2, i3⟩ := invs_processAll_singleton c p₂ _ _ h2 i2
  have i4 := invs_processMsg_final c out err _ r _ i3 hr
  rw [invs_processAll_no_touch c p₃ _ h3, i4]

/-- C2 witness: announcement of `"t1"`, one interleaved text delta, a
tool-result message with block-array content, one trailing unrelated
message. -/
theorem C2_tool_result_correlation_witness :
    announcedWith "t1"
        (SDKMsg.assistant "s" [ABlock.toolUse "t1" "Read" "notes.md"] none)
      = [("Read", "notes.md")] ∧
    finalResultFor "t1"
        (SDKMsg.toolResultMsg "s" false "t1"
          (TRContent.arr [TBlock.text "out", TBlock.other]) none true)
      = some ("out", true) ∧
    (∀ m ∈ ([] : List SDKMsg), announcedWith "t1" m = []) ∧
    (∀ m ∈ [SDKMsg.streamDelta "s" "ok"], announcedWith "t1" m = []) ∧
    (∀ m ∈ [SDKMsg.unknown "s"],
      announcedWith "t1" m = [] ∧ writesResult "t1" m = false) ∧
    invocationsFor "t1" (runStream
        ([] ++ SDKMsg.assistant "s" [ABlock.toolUse "t1" "Read" "notes.md"] none ::
          ([SDKMsg.streamDelta "s" "ok"] ++
            SDKMsg.toolResultMsg "s" false "t1"
                (TRContent.arr [TBlock.text "out", TBlock.other]) none true ::
              [SDKMsg.unknown "s"])))
      = [{ tool := "Read", input := "notes.md", output := "out",
           isError := true, id := "t1" }] :=
  ⟨by decide, by decide, by decide, by decide, by decide,
    C2_tool_result_correlation "t1" "Read" "notes.md" "out" true
      [] [SDKMsg.streamDelta "s" "ok"] [SDKMsg.unknown "s"] _ _
      (by decide) (by decide) (by decide) (by decide) (by decide)⟩

end ObsidianClaude
